import Mathlib

/-!
Verification of the dual (local/remote-fork) storage, contract execution
lifecycle and IBC relay logic of a blockchain multi-contract test harness.

The definitions below are shallow embeddings of the Rust sources:
* `src/wasm_emulation/storage/dual_std_storage.rs` (dual storage, merge iterator),
* `src/wasm.rs` (submessage execution, contract registration, migration,
  response building, instantiate data encoding),
* `src/ibc/relayer/timeout.rs` and `src/ibc/relayer/mod.rs` (relay helpers).

Byte strings are modelled as `List Nat` (each entry a byte value), machine
integers as `Nat`, fallible calls as `Except`, and the remote chain as an
explicit oracle function.
-/

namespace CwMultiTest

/-- Byte string (`Vec<u8>` in the source). -/
abbrev Bytes := List Nat

/-- A storage record: key and value (`cosmwasm_std::Record`). -/
abbrev Record := Bytes × Bytes

/-- Big-endian unsigned interpretation of a byte string
(`BigInt::from_bytes_be(Sign::Plus, _)` in the source). -/
def bytesToNat (l : Bytes) : Nat := l.foldl (fun acc b => acc * 256 + b) 0

/-- Lexicographic strict order on byte strings, the ordering of the
underlying `BTreeMap` based local storage. -/
def lexLt : Bytes → Bytes → Bool
  | [], [] => false
  | [], _ :: _ => true
  | _ :: _, [] => false
  | a :: xs, b :: ys => if a < b then true else if b < a then false else lexLt xs ys

/-- In-memory local storage model: association list kept sorted by `lexLt`
on keys (models `cosmwasm_std::MemoryStorage`, a `BTreeMap`). -/
def memSet (st : List Record) (key value : Bytes) : List Record :=
  match st with
  | [] => [(key, value)]
  | (k, v) :: rest =>
    if lexLt key k then (key, value) :: (k, v) :: rest
    else if k = key then (key, value) :: rest
    else (k, v) :: memSet rest key value

/-- Remove a key from the local storage model. -/
def memRemove (st : List Record) (key : Bytes) : List Record :=
  st.filter (fun r => r.1 ≠ key)

/-- Point lookup in the local storage model. -/
def memGet (st : List Record) (key : Bytes) : Option Bytes :=
  (st.find? (fun r => r.1 = key)).map (fun r => r.2)

/-- Iteration order requested from `Storage::range` (`cosmwasm_std::Order`). -/
inductive Order where
  | ascending
  | descending
deriving DecidableEq, Repr

/-- Bounded range over the local storage model, start inclusive, stop
exclusive, in the requested order. -/
def memRange (st : List Record) (start stop : Option Bytes) (order : Order) : List Record :=
  let f := st.filter (fun r =>
    (match start with
     | some s => !(lexLt r.1 s)
     | none => true)
    &&
    (match stop with
     | some e => lexLt r.1 e
     | none => true))
  match order with
  | .ascending => f
  | .descending => f.reverse

/-! ### `dual_std_storage.rs`: key comparison -/

/-- `get_key_bigint`: pad the shorter key with trailing zeros to equal
length, then interpret both as big-endian unsigned integers. -/
def get_key_bigint (key1 key2 : Bytes) : Nat × Nat :=
  if key2.length ≤ key1.length then
    (bytesToNat key1, bytesToNat (key2 ++ List.replicate (key1.length - key2.length) 0))
  else
    (bytesToNat (key1 ++ List.replicate (key2.length - key1.length) 0), bytesToNat key2)

/-- `gte`: `key1 >= key2` under the padded big-integer comparison. -/
def gte (key1 key2 : Bytes) : Bool :=
  let ints := get_key_bigint key1 key2
  decide (ints.2 ≤ ints.1)

/-! ### `dual_std_storage.rs`: the merge iterator -/

/-- One remote storage entry (`cosmrs Model`). -/
structure Model where
  key : Bytes
  value : Bytes
deriving DecidableEq, Repr

/-- Pagination data of a remote page response (`PageResponse`). -/
structure PageResponse where
  next_key : Bytes
deriving DecidableEq, Repr

/-- A remote `all_contract_state` page (`QueryAllContractStateResponse`). -/
structure ContractStateResponse where
  models : List Model
  pagination : Option PageResponse
deriving DecidableEq, Repr

/-- `Default::default()` for a page response, produced by
`unwrap_or_default()` when the remote query fails. -/
def ContractStateResponse.defaultResp : ContractStateResponse := ⟨[], none⟩

/-- The remote paged query as an oracle: page start key and `reverse` flag
to either a transport error or a page. -/
abbrev Fetch := Bytes → Bool → Except Unit ContractStateResponse

/-- State of the lazily paged remote iterator (`DistantIter`). `stop`
models the source field `end` (a Lean keyword). -/
structure DistantIter where
  data : List Model
  position : Nat
  key : Option Bytes
  start : Option Bytes
  stop : Option Bytes
  reverse : Bool
deriving DecidableEq, Repr

/-- State of the dual merge iterator (`Iter`): remote side plus the
remaining local records (the peekable local iterator). -/
structure Iter where
  distant_iter : DistantIter
  local_iter : List Record
deriving DecidableEq, Repr

/-- The bounds filter applied to freshly fetched remote models
(the closure inside step 1 of `Iter::next`). -/
def inBounds (start stop : Option Bytes) (m : Model) : Bool :=
  (match stop with
   | some e => !(gte m.key e)
   | none => true)
  &&
  (match start with
   | some s => gte m.key s
   | none => true)

/-- Step 1 of `Iter::next`: if the fetched data is exhausted and a page key
remains, fetch one more page (errors swallowed by `unwrap_or_default`),
keep the entries within bounds and store the next page key. -/
def DistantIter.refill (fetch : Fetch) (d : DistantIter) : DistantIter :=
  match d.key with
  | none => d
  | some k =>
    if d.position = d.data.length ∧ (d.position = 0 ∨ k ≠ []) then
      let new_keys := match fetch k d.reverse with
        | .ok p => p
        | .error _ => ContractStateResponse.defaultResp
      { d with
        data := d.data ++ new_keys.models.filter (inBounds d.start d.stop),
        key := new_keys.pagination.map (fun p => p.next_key) }
    else d

/-- Step 2 of `Iter::next`: emit the earlier key in the requested
direction among the local head and the next remote entry, advancing only
that side. -/
def Iter.emit (d : DistantIter) : List Record → Option Record × Iter
  | l :: rest =>
    match d.data.get? d.position with
    | some distant =>
      if (decide (bytesToNat l.1 < bytesToNat distant.key)) == d.reverse then
        (some (distant.key, distant.value),
         { distant_iter := { d with position := d.position + 1 }, local_iter := l :: rest })
      else
        (some l, { distant_iter := d, local_iter := rest })
    | none => (some l, { distant_iter := d, local_iter := rest })
  | [] =>
    match d.data.get? d.position with
    | some distant =>
      (some (distant.key, distant.value),
       { distant_iter := { d with position := d.position + 1 }, local_iter := [] })
    | none => (none, { distant_iter := d, local_iter := [] })

/-- `Iter::next`: refill the remote side if needed, then emit one record. -/
def Iter.next (fetch : Fetch) (it : Iter) : Option Record × Iter :=
  Iter.emit (it.distant_iter.refill fetch) it.local_iter

/-- Drain the iterator: collect emitted records until it yields `None`
(the consumer loop over the Rust iterator), with a fuel bound. -/
def Iter.run (fetch : Fetch) : Nat → Iter → List Record
  | 0, _ => []
  | fuel + 1, it =>
    match Iter.next fetch it with
    | (none, _) => []
    | (some r, it') => r :: Iter.run fetch fuel it'

/-! ### `dual_std_storage.rs`: the `DualStorage` store -/

/-- Dual storage state: a local store plus the set of locally removed keys
(`DualStorage`). The remote side is passed to the operations as oracles. -/
structure DualStorage where
  local_storage : List Record
  removed_keys : List Bytes
deriving DecidableEq, Repr

/-- `DualStorage::new` with initial local records. -/
def DualStorage.new (init : List Record) : DualStorage :=
  { local_storage := init.foldl (fun s kv => memSet s kv.1 kv.2) []
    removed_keys := [] }

/-- `DualStorage::set`: the key is no longer locally removed, write locally. -/
def DualStorage.set (ds : DualStorage) (key value : Bytes) : DualStorage :=
  { local_storage := memSet ds.local_storage key value
    removed_keys := ds.removed_keys.filter (fun k => k ≠ key) }

/-- `DualStorage::remove`: record the key as locally removed and delete it
from the local store. -/
def DualStorage.remove (ds : DualStorage) (key : Bytes) : DualStorage :=
  { local_storage := memRemove ds.local_storage key
    removed_keys :=
      if ds.removed_keys.contains key then ds.removed_keys else key :: ds.removed_keys }

/-- `DualStorage::get`: local first; on a local miss of a key that is not
locally removed, ask the remote oracle; an empty remote answer and a
remote error both leave the local miss in place. -/
def DualStorage.get (ds : DualStorage) (remoteGet : Bytes → Except Unit Bytes)
    (key : Bytes) : Option Bytes :=
  let value := memGet ds.local_storage key
  if ¬ ds.removed_keys.contains key ∧ value = none then
    match remoteGet key with
    | .ok data => if data ≠ [] then some data else value
    | .error _ => value
  else value

/-- `DualStorage::range`: build the merge iterator; the first remote page
key is the range end for descending order, the range start otherwise. -/
def DualStorage.range (ds : DualStorage) (start stop : Option Bytes) (order : Order) : Iter :=
  let reverse := order = Order.descending
  let querier_start := if reverse then stop.getD [] else start.getD []
  { distant_iter :=
      { data := []
        position := 0
        key := some querier_start
        start := start
        stop := stop
        reverse := reverse }
    local_iter := memRange ds.local_storage start stop order }

/-! ### Honest remote chain oracle

The network collaborator is out of scope of the source; we model a
well-behaved remote chain over a fixed list of models: pages of at most
five entries, `next_key` pointing at the first entry of the next page, and
an empty page key meaning "start from the beginning". -/

/-- One page of at most `5` entries (`DISTANT_LIMIT`) out of `dir`, the
chain's data in the serving direction, starting at the first entry not
`before` the page key. -/
def honestPage (dir : List Model) (before : Model → Bool) (k : Bytes) : ContractStateResponse :=
  let rest := if k = [] then dir else dir.dropWhile before
  { models := rest.take 5
    pagination :=
      match rest.drop 5 with
      | [] => none
      | m :: _ => some ⟨m.key⟩ }

/-- Honest remote chain over the ascending model list `chain`: ascending
requests are served in order, descending ones from the reversed list. -/
def honestFetch (chain : List Model) : Fetch := fun k reverse =>
  if reverse then
    .ok (honestPage chain.reverse (fun m => decide (bytesToNat k < bytesToNat m.key)) k)
  else
    .ok (honestPage chain (fun m => decide (bytesToNat m.key < bytesToNat k)) k)

/-- Remote fetch that always fails (remote transport error on paging). -/
def failFetch : Fetch := fun _ _ => .error ()

/-! ### Specification-side merge of two record streams -/

/-- Record view of a remote model. -/
def Model.record (m : Model) : Record := (m.key, m.value)

/-- Ascending two-way merge by big-endian numeric key value; on a tie the
remote (second) entry comes first, mirroring the iterator's comparison. -/
def mergeAsc : List Record → List Record → List Record
  | [], ds => ds
  | l :: ls, [] => l :: ls
  | l :: ls, d :: ds =>
    if bytesToNat d.1 ≤ bytesToNat l.1 then d :: mergeAsc (l :: ls) ds
    else l :: mergeAsc ls (d :: ds)
termination_by l d => l.length + d.length

/-- Descending two-way merge by big-endian numeric key value; on a tie the
local (first) entry comes first, mirroring the iterator's comparison. -/
def mergeDesc : List Record → List Record → List Record
  | [], ds => ds
  | l :: ls, [] => l :: ls
  | l :: ls, d :: ds =>
    if bytesToNat l.1 < bytesToNat d.1 then d :: mergeDesc (l :: ls) ds
    else l :: mergeDesc ls (d :: ds)
termination_by l d => l.length + d.length

/-- Local records sorted by ascending numeric key value. -/
def SortedAscRec (l : List Record) : Prop :=
  l.Pairwise (fun a b => bytesToNat a.1 ≤ bytesToNat b.1)

/-! ### `wasm.rs`: events, responses, submessages -/

/-- Reply policy of a submessage (`cosmwasm_std::ReplyOn`). -/
inductive ReplyOn where
  | always
  | error
  | success
  | never
deriving DecidableEq, Repr

/-- An event: a kind string plus key/value attributes. -/
structure Event where
  ty : String
  attributes : List (String × String)
deriving DecidableEq, Repr

/-- The reserved attribute key carrying the contract address
(`CONTRACT_ATTR`). -/
def CONTRACT_ATTR : String := "_contract_address"

/-- A processed response (`AppResponse`): flattened events plus optional
binary data. -/
structure AppResponse where
  events : List Event
  data : Option Bytes
deriving DecidableEq, Repr

/-- Successful submessage outcome carried into a reply
(`SubMsgResponse`). -/
structure SubMsgResponse where
  events : List Event
  data : Option Bytes
deriving DecidableEq, Repr

/-- Outcome of a submessage as seen by `reply` (`SubMsgResult`). -/
inductive SubMsgResult where
  | ok (resp : SubMsgResponse)
  | err (msg : String)
deriving DecidableEq, Repr

/-- The argument of the `Reply` entry point. -/
structure Reply where
  id : Nat
  payload : Bytes
  gas_used : Nat
  result : SubMsgResult
deriving DecidableEq, Repr

/-- A submessage produced by a contract response (`SubMsg`): opaque
message payload, numeric id, reply payload and reply policy. -/
structure SubMsg where
  msg : Bytes
  id : Nat
  payload : Bytes
  reply_on : ReplyOn
deriving DecidableEq, Repr

/-- A raw contract response (`cosmwasm_std::Response`): outgoing
submessages, attributes, events and optional data. -/
structure Response where
  messages : List SubMsg
  attributes : List (String × String)
  events : List Event
  data : Option Bytes
deriving DecidableEq, Repr

/-- The entry-point specific synthetic event added by the keeper around a
contract call: `Event::new(name).add_attribute(CONTRACT_ATTR, contract)`,
possibly with further attributes (`code_id`, reply mode). -/
def entry_point_event (name : String) (contract : String)
    (extra : List (String × String)) : Event :=
  { ty := name, attributes := (CONTRACT_ATTR, contract) :: extra }

/-- `WasmKeeper::build_app_response`: the custom event always comes first;
a `wasm` event wrapping the contract attributes is added exactly when some
attributes exist; contract events get a `wasm-` kind prefix and the
contract address as first attribute. The submessages are passed through. -/
def build_app_response (contract : String) (custom_event : Event) (response : Response) :
    AppResponse × List SubMsg :=
  let app_events :=
    [custom_event]
    ++ (if response.attributes ≠ [] then
          [{ ty := "wasm",
             attributes := (CONTRACT_ATTR, contract) :: response.attributes : Event }]
        else [])
    ++ response.events.map (fun ev =>
        { ty := "wasm-" ++ ev.ty,
          attributes := (CONTRACT_ATTR, contract) :: ev.attributes })
  ({ events := app_events, data := response.data }, response.messages)

/-- `WasmKeeper::execute_submsg`, with the transactional router execution
of the submessage and the `reply` call given as oracles (`res` is the
outcome of `router.execute` inside `transactional`; `replyFn` models
`self.reply`). Also returns the list of `Reply` values dispatched, so
that reply-call counts can be stated. -/
def execute_submsg (id : Nat) (payload : Bytes) (reply_on : ReplyOn)
    (res : Except String AppResponse)
    (replyFn : Reply → Except String AppResponse) :
    Except String AppResponse × List Reply :=
  match res with
  | .ok r =>
    if reply_on = ReplyOn.always ∨ reply_on = ReplyOn.success then
      let reply : Reply :=
        { id := id, payload := payload, gas_used := 0,
          result := SubMsgResult.ok { events := r.events, data := r.data } }
      match replyFn reply with
      | .ok reply_res =>
        (.ok { events := r.events ++ reply_res.events, data := reply_res.data }, [reply])
      | .error e => (.error e, [reply])
    else
      (.ok { events := r.events, data := none }, [])
  | .error e =>
    if reply_on = ReplyOn.always ∨ reply_on = ReplyOn.error then
      let reply : Reply :=
        { id := id, payload := payload, gas_used := 0, result := SubMsgResult.err e }
      (replyFn reply, [reply])
    else
      (.error e, [])

/-! ### `wasm.rs`: contract registry, admin operations, migration -/

/-- Contract addresses. `named` covers externally supplied addresses;
`seq` and `predictable` are the two generator outputs. -/
inductive Addr where
  | named (s : String)
  | seq (n : Nat)
  | predictable (creator : Addr) (checksum : Bytes) (salt : Bytes)
deriving DecidableEq, Repr

/-- Per-instance contract data (`ContractData`). -/
structure ContractData where
  code_id : Nat
  creator : Addr
  admin : Option Addr
deriving DecidableEq, Repr

/-- Per-code data (`CodeData`). -/
structure CodeData where
  creator : Addr
  checksum : Bytes
  code_base_id : Nat
deriving DecidableEq, Repr

/-- Errors of the wasm keeper operations under verification. -/
inductive WasmError where
  | duplicatedContractAddress (addr : Addr)
  | invalidCodeId
  | labelRequired
  | notAdmin (admin : Option Addr)
  | contractNotFound (addr : Addr)
  | codeNotFound (code_id : Nat)
  | entryPoint (msg : String)
deriving DecidableEq, Repr

/-- The keeper state the claims touch: the `CONTRACTS` storage map and the
`code_data` table. -/
structure WasmState where
  contracts : List (Addr × ContractData)
  code_data : List (Nat × CodeData)
deriving DecidableEq, Repr

/-- Remote chain oracles used by the keeper fallbacks
(`WasmRemoteQuerier`): `none` models a failed remote query. -/
structure WasmRemote where
  contract_info : Addr → Option ContractData
  code_info : Nat → Option CodeData

/-- `WasmKeeper::contract_data`: local `CONTRACTS` lookup, falling back to
the remote chain. -/
def wasm_contract_data (remote : WasmRemote) (st : WasmState) (address : Addr) :
    Except WasmError ContractData :=
  match (st.contracts.find? (fun c => c.1 = address)).map (fun c => c.2) with
  | some cd => .ok cd
  | none =>
    match remote.contract_info address with
    | some cd => .ok cd
    | none => .error (WasmError.contractNotFound address)

/-- `WasmKeeper::code_data`: positive id check, local table lookup,
falling back to the remote chain. -/
def wasm_code_data (remote : WasmRemote) (st : WasmState) (code_id : Nat) :
    Except WasmError CodeData :=
  if code_id < 1 then .error WasmError.invalidCodeId
  else
    match (st.code_data.find? (fun c => c.1 = code_id)).map (fun c => c.2) with
    | some cd => .ok cd
    | none =>
      match remote.code_info code_id with
      | some cd => .ok cd
      | none => .error (WasmError.codeNotFound code_id)

/-- Modelled from the spec: `crate::addresses::SimpleAddressGenerator` is
not among the sources. Per the spec, addresses are assigned "either
sequentially or deterministically (creator + code checksum + instance
counter + caller salt), rejecting collisions"; the sequential generator is
a function of the instance counter only. -/
def sim_contract_address (instance_id : Nat) : Addr := Addr.seq instance_id

/-- Modelled from the spec: the deterministic generator; per the spec,
"two salted instantiations with identical creator/code/salt yield the
same address", so it is a function of the creator's canonical address,
the code checksum and the caller salt. -/
def sim_predictable_contract_address (creator : Addr) (checksum : Bytes)
    (salt : Bytes) : Addr :=
  Addr.predictable creator checksum salt

/-- `WasmKeeper::instance_count`: the number of entries of `CONTRACTS`. -/
def wasm_instance_count (st : WasmState) : Nat := st.contracts.length

/-- `WasmKeeper::save_contract`: insert or replace in `CONTRACTS`. -/
def save_contract (st : WasmState) (address : Addr) (contract : ContractData) :
    WasmState :=
  { st with contracts :=
      if st.contracts.any (fun c => c.1 = address) then
        st.contracts.map (fun c => if c.1 = address then (address, contract) else c)
      else st.contracts ++ [(address, contract)] }

/-- `WasmKeeper::register_contract`: generate the address (sequentially,
or deterministically when a salt is given — the code id is not required
to exist locally), reject an already-used address, then save the new
instance. -/
def register_contract (remote : WasmRemote) (st : WasmState) (code_id : Nat)
    (creator : Addr) (admin : Option Addr) (salt : Option Bytes) :
    Except WasmError (Addr × WasmState) := do
  let instance_id := wasm_instance_count st
  let addr ← match salt with
    | some salt_binary => do
      let cd ← wasm_code_data remote st code_id
      pure (sim_predictable_contract_address creator cd.checksum salt_binary)
    | none => pure (sim_contract_address instance_id)
  if (wasm_contract_data remote st addr).isOk then
    .error (WasmError.duplicatedContractAddress addr)
  else
    .ok (addr, save_contract st addr
      { code_id := code_id, creator := creator, admin := admin })

/-- `WasmKeeper::update_admin` (shared by `UpdateAdmin` and `ClearAdmin`):
only the recorded admin may change the admin field. -/
def update_admin (remote : WasmRemote) (st : WasmState) (sender : Addr)
    (contract_addr : Addr) (new_admin : Option Addr) :
    Except WasmError WasmState := do
  let data ← wasm_contract_data remote st contract_addr
  if data.admin ≠ some sender then
    .error (WasmError.notAdmin data.admin)
  else
    .ok (save_contract st contract_addr
      { code_id := data.code_id, creator := data.creator, admin := new_admin })

/-- The `WasmMsg::Migrate` arm of `execute_wasm` up to `save_contract`:
admin check, then the code id is stored without any existence check
("We don't check if the code exists here, the call_migrate hook, will
take care of that"). -/
def migrate_update (remote : WasmRemote) (st : WasmState) (sender : Addr)
    (contract_addr : Addr) (new_code_id : Nat) :
    Except WasmError WasmState := do
  let data ← wasm_contract_data remote st contract_addr
  if data.admin ≠ some sender then
    .error (WasmError.notAdmin data.admin)
  else
    .ok (save_contract st contract_addr
      { code_id := new_code_id, creator := data.creator, admin := data.admin })

/-- `WasmKeeper::call_migrate` via `with_storage`: resolve the contract,
resolve its (new) code id — this is where a missing code id first
surfaces — then run the migrate entry point (an oracle). -/
def call_migrate (remote : WasmRemote) (st : WasmState) (contract_addr : Addr)
    (entry : CodeData → Except WasmError Response) :
    Except WasmError Response := do
  let contract ← wasm_contract_data remote st contract_addr
  let cd ← wasm_code_data remote st contract.code_id
  entry cd

/-- The whole `WasmMsg::Migrate` arm: store the new code id, then invoke
the migrate entry point on the updated record. -/
def execute_migrate (remote : WasmRemote) (st : WasmState) (sender : Addr)
    (contract_addr : Addr) (new_code_id : Nat)
    (entry : CodeData → Except WasmError Response) :
    Except WasmError (Response × WasmState) := do
  let st2 ← migrate_update remote st sender contract_addr new_code_id
  let res ← call_migrate remote st2 contract_addr entry
  .ok (res, st2)

/-! ### `wasm.rs`: instantiate response data encoding -/

/-- LEB128 (protobuf varint) encoding of a natural number. -/
def varint (n : Nat) : List Nat :=
  if h : n < 128 then [n]
  else (n % 128 + 128) :: varint (n / 128)
decreasing_by
  exact Nat.div_lt_self (by omega) (by omega)

/-- One protobuf length-delimited field: tag byte, varint length, payload;
prost skips fields holding the default (empty) value. -/
def encode_len_field (tag : Nat) (payload : List Nat) : List Nat :=
  if payload = [] then [] else tag :: (varint payload.length ++ payload)

/-- `instantiate_response`: the prost encoding of `InstantiateResponse`
with field 1 the contract address (tag byte `0x0A`) and field 2 the data
bytes returned by the contract or a reply, defaulting to empty
(tag byte `0x12`). -/
def instantiate_response (data : Option Bytes) (contract_address : Bytes) : Bytes :=
  encode_len_field 10 contract_address ++ encode_len_field 18 (data.getD [])

/-- Protobuf varint decoder: value and remaining bytes. -/
def decode_varint : List Nat → Option (Nat × List Nat)
  | [] => none
  | b :: rest =>
    if b < 128 then some (b, rest)
    else
      match decode_varint rest with
      | some (n, rest2) => some (n * 128 + (b - 128), rest2)
      | none => none

/-- Extract the field-1 string (the contract address) from an encoded
`InstantiateResponse`. -/
def decode_instantiate_address (bytes : List Nat) : Option Bytes :=
  match bytes with
  | b :: rest =>
    if b = 10 then
      match decode_varint rest with
      | some (len, rest2) => if len ≤ rest2.length then some (rest2.take len) else none
      | _ => none
    else none
  | _ => none

/-- Tail of `process_wasm_msg_instantiate`: label check, registration,
fund transfer, contract call and submessage processing (the latter three
as oracles), then the response data is unconditionally replaced by the
encoded address/data record. -/
def process_wasm_msg_instantiate (label : String)
    (register : Except WasmError Bytes)
    (send : Except WasmError Unit)
    (callAndProcess : Bytes → Except WasmError AppResponse) :
    Except WasmError AppResponse := do
  if label = "" then
    Except.error WasmError.labelRequired
  else
    let contract_addr ← register
    let _ ← send
    let res ← callAndProcess contract_addr
    pure { events := res.events,
           data := some (instantiate_response res.data contract_addr) }

/-! ### `ibc/relayer`: receive-then-timeout relay -/

/-- The packet reconstructed from source-chain state (`IbcPacketData`). -/
structure IbcPacketData where
  src_port_id : String
  src_channel_id : String
  dst_port_id : String
  dst_channel_id : String
  sequence : Nat
  data : Bytes
deriving DecidableEq, Repr

/-- The relaying sudo messages used by the timeout relayer
(`IbcPacketRelayingMsg`, restricted to the variants these functions
send). -/
inductive IbcPacketRelayingMsg where
  | receive (packet : IbcPacketData)
  | timeout (packet : IbcPacketData)
deriving DecidableEq, Repr

/-- The conventional event kind carrying the acknowledgement
(`WRITE_ACK_EVENT`). -/
def WRITE_ACK_EVENT : String := "write_acknowledgement"

/-- `get_event_attr_value`: first matching attribute of the first event of
the given kind that carries the key; an error naming both otherwise. -/
def get_event_attr_value (response : AppResponse) (event_type attr_key : String) :
    Except String String :=
  match response.events.findSome? (fun event =>
    if event.ty = event_type then
      event.attributes.findSome? (fun attr =>
        if attr.1 = attr_key then some attr.2 else none)
    else none) with
  | some v => .ok v
  | none =>
    .error ("event of type " ++ event_type ++ " does not have a value at key " ++ attr_key)

/-- One hexadecimal digit. -/
def hexDigit (c : Char) : Option Nat :=
  if '0' ≤ c ∧ c ≤ '9' then some (c.toNat - '0'.toNat)
  else if 'a' ≤ c ∧ c ≤ 'f' then some (c.toNat - 'a'.toNat + 10)
  else if 'A' ≤ c ∧ c ≤ 'F' then some (c.toNat - 'A'.toNat + 10)
  else none

/-- `hex::decode` on a character list: pairs of hex digits to bytes. -/
def hexDecodeList : List Char → Option Bytes
  | [] => some []
  | [_] => none
  | c1 :: c2 :: rest => do
    let hi ← hexDigit c1
    let lo ← hexDigit c2
    let tail ← hexDecodeList rest
    pure ((hi * 16 + lo) :: tail)

/-- `hex::decode` on a string. -/
def hexDecode (s : String) : Option Bytes := hexDecodeList s.data

/-- A simulated chain as the relayer sees it: the source-packet query
(`ibc_query` + `from_json`) and the `sudo` entry which transforms the
chain state. -/
structure ChainApp (σ : Type) where
  query_send_packet : String → String → Nat → Except String IbcPacketData
  sudo_ : IbcPacketRelayingMsg → σ → Except String (AppResponse × σ)

/-- `receive_and_timeout_packet`: read the packet from the source chain,
deliver it to the destination's `Receive` hook, extract the hex
acknowledgement from the write-acknowledgement event, then `Timeout` the
packet on the source chain only. Returns both responses, the decoded
acknowledgement, and the two final chain states. -/
def receive_and_timeout_packet {σ1 σ2 : Type}
    (app1 : ChainApp σ1) (app2 : ChainApp σ2) (s1 : σ1) (s2 : σ2)
    (src_port_id src_channel_id : String) (sequence : Nat) :
    Except String ((AppResponse × AppResponse × Bytes) × σ1 × σ2) := do
  let packet ← app1.query_send_packet src_port_id src_channel_id sequence
  let (receive_response, s2a) ← app2.sudo_ (IbcPacketRelayingMsg.receive packet) s2
  let hex_ack ← get_event_attr_value receive_response WRITE_ACK_EVENT "packet_ack_hex"
  let ack ← match hexDecode hex_ack with
    | some b => Except.ok b
    | none => Except.error "invalid hex"
  let (timeout_response, s1a) ← app1.sudo_ (IbcPacketRelayingMsg.timeout packet) s1
  pure ((receive_response, timeout_response, ack), s1a, s2a)

/-! ### Merge-iterator invariants and correctness -/

/-- The chain list is strictly ascending in numeric key value. -/
def StrictAscChain (R : List Model) : Prop :=
  R.Pairwise (fun a b => bytesToNat a.key < bytesToNat b.key)

/-- The chain list is strictly descending in numeric key value. -/
def StrictDescChain (D : List Model) : Prop :=
  D.Pairwise (fun a b => bytesToNat b.key < bytesToNat a.key)

/-- Every remote key is a non-empty byte string. -/
def KeysNonEmpty (R : List Model) : Prop := ∀ m ∈ R, m.key ≠ []

/-- Invariant tying a `DistantIter` to the serving list `D` of the honest
remote chain in the requested direction: the fetched data is a prefix of
`D`, the position is inside it, and the page key points at the first entry
not fetched yet. -/
structure MergeInv (D : List Model) (rev : Bool) (d : DistantIter) : Prop where
  hstart : d.start = none
  hstop : d.stop = none
  hrev : d.reverse = rev
  hdata : d.data = D.take d.data.length
  hlen : d.data.length ≤ D.length
  hpos : d.position ≤ d.data.length
  hkey_none : d.key = none → d.data.length = D.length
  hkey_some : ∀ k, d.key = some k →
    (d.data.length = 0 ∧ k = []) ∨ ∃ m, D.get? d.data.length = some m ∧ k = m.key

lemma inBounds_none_none (m : Model) : inBounds none none m = true := by
  simp [inBounds]

lemma dropWhile_asc (R : List Model) (hs : StrictAscChain R) (n : Nat) (m : Model)
    (hm : R.get? n = some m) :
    R.dropWhile (fun x => decide (bytesToNat x.key < bytesToNat m.key)) = R.drop n := by
  induction R generalizing n with
  | nil => simp at hm
  | cons x xs ih =>
    cases hs with
    | cons hx hxs =>
      cases n with
      | zero =>
        simp only [List.get?] at hm
        injection hm with hm
        subst hm
        simp [List.dropWhile_cons]
      | succ n =>
        simp only [List.get?] at hm
        have hmem : m ∈ xs := List.get?_mem hm
        have hlt : bytesToNat x.key < bytesToNat m.key := hx m hmem
        simp only [List.dropWhile_cons, decide_eq_true hlt, if_true, List.drop_succ_cons]
        exact ih hxs n hm

lemma dropWhile_desc (D : List Model) (hs : StrictDescChain D) (n : Nat) (m : Model)
    (hm : D.get? n = some m) :
    D.dropWhile (fun x => decide (bytesToNat m.key < bytesToNat x.key)) = D.drop n := by
  induction D generalizing n with
  | nil => simp at hm
  | cons x xs ih =>
    cases hs with
    | cons hx hxs =>
      cases n with
      | zero =>
        simp only [List.get?] at hm
        injection hm with hm
        subst hm
        simp [List.dropWhile_cons]
      | succ n =>
        simp only [List.get?] at hm
        have hmem : m ∈ xs := List.get?_mem hm
        have hlt : bytesToNat m.key < bytesToNat x.key := hx m hmem
        simp only [List.dropWhile_cons, decide_eq_true hlt, if_true, List.drop_succ_cons]
        exact ih hxs n hm

lemma take_self_length (R : List Model) (j : Nat) :
    R.take j = R.take (R.take j).length := by
  rw [List.take_eq_take, List.length_take]
  omega

lemma refill_honest (D : List Model) (rev : Bool) (fetch : Fetch)
    (pred : Bytes → Model → Bool) (hne : KeysNonEmpty D)
    (hserve : ∀ k, fetch k rev = .ok (honestPage D (pred k) k))
    (hdrop : ∀ n m, D.get? n = some m → D.dropWhile (pred m.key) = D.drop n)
    (d : DistantIter) (inv : MergeInv D rev d) :
    MergeInv D rev (d.refill fetch) ∧
    (d.refill fetch).position = d.position ∧
    (d.refill fetch).data.get? d.position = D.get? d.position := by
  have hfilter : ∀ l : List Model, l.filter (inBounds d.start d.stop) = l := by
    intro l
    rw [inv.hstart, inv.hstop]
    exact List.filter_eq_self.mpr (fun a _ => inBounds_none_none a)
  cases hk : d.key with
  | none =>
    have hrefill : d.refill fetch = d := by
      simp [DistantIter.refill, hk]
    rw [hrefill]
    refine ⟨inv, rfl, ?_⟩
    rcases Nat.lt_or_ge d.position d.data.length with hlt | hge
    · rw [inv.hdata, List.get?_take hlt]
    · have hpe : d.position = d.data.length := le_antisymm inv.hpos hge
      have hnn : d.data.length = D.length := inv.hkey_none hk
      rw [List.get?_len_le (by omega), List.get?_len_le (by omega)]
  | some k =>
    by_cases hguard : d.position = d.data.length ∧ (d.position = 0 ∨ k ≠ [])
    · have hfetch : fetch k d.reverse = .ok (honestPage D (pred k) k) := by
        rw [inv.hrev]; exact hserve k
      have hrefill : d.refill fetch =
          { d with
            data := d.data ++ (honestPage D (pred k) k).models.filter
                (inBounds d.start d.stop),
            key := (honestPage D (pred k) k).pagination.map
                (fun p => p.next_key) } := by
        simp only [DistantIter.refill, hk, if_pos hguard, hfetch]
      rcases inv.hkey_some k hk with ⟨hn0, hkE⟩ | ⟨m, hm, hkm⟩
      · -- first page: the key is empty, data is empty, the whole chain is served
        have hdnil : d.data = [] := List.length_eq_zero.mp hn0
        have hpage : honestPage D (pred k) k
            = { models := D.take 5,
                pagination := match D.drop 5 with
                  | [] => none
                  | m :: _ => some ⟨m.key⟩ } := by
          subst hkE
          simp [honestPage]
        rw [hrefill, hpage]
        set d' : DistantIter :=
          { d with
            data := d.data ++ (List.filter (inBounds d.start d.stop) (D.take 5)),
            key := (match D.drop 5 with
              | [] => none
              | m :: _ => some ⟨m.key⟩ : Option PageResponse).map (fun p => p.next_key) }
          with hd'
        have hdata' : d'.data = D.take 5 := by
          rw [hd']; simp only; rw [hfilter, hdnil, List.nil_append]
        have hlen' : d'.data.length = min 5 D.length := by
          rw [hdata', List.length_take]
        refine ⟨⟨inv.hstart, inv.hstop, inv.hrev, ?_, ?_, ?_, ?_, ?_⟩, rfl, ?_⟩
        · rw [hdata']; exact take_self_length D 5
        · omega
        · have : d'.position = d.position := rfl
          rw [this, hguard.1, hn0]; omega
        · intro hkn
          rcases hdropc : D.drop 5 with _ | ⟨m', rest'⟩
          · have : D.length ≤ 5 := List.drop_eq_nil_iff_le.mp hdropc
            omega
          · rw [hd'] at hkn
            simp only [hdropc] at hkn
            cases hkn
        · intro k' hk'
          rcases hdropc : D.drop 5 with _ | ⟨m', rest'⟩
          · rw [hd'] at hk'
            simp only [hdropc] at hk'
            cases hk'
          · have h5 : 5 < D.length := by
              rcases Nat.lt_or_ge 5 D.length with h | h
              · exact h
              · rw [List.drop_eq_nil_iff_le.mpr h] at hdropc; cases hdropc
            refine Or.inr ⟨m', ?_, ?_⟩
            · have := List.get?_drop D 5 0
              rw [hdropc] at this
              simp only [List.get?] at this
              rw [hlen']
              have hmin : min 5 D.length = 5 := by omega
              rw [hmin]
              exact this.symm
            · rw [hd'] at hk'
              simp only [hdropc] at hk'
              cases hk'
              rfl
        · -- the emitted position is still readable from the new data
          have hpos0 : d.position = 0 := by
            rw [hguard.1, hn0]
          rw [hpos0, hdata']
          rcases hR : D with _ | ⟨r0, rs⟩
          · simp
          · rw [← hR, List.get?_take (by omega)]
      · -- continuation page: the key is the next unfetched entry of the chain
        have hkne : k ≠ [] := by
          rw [hkm]
          exact hne m (List.get?_mem hm)
        have hmlt : d.data.length < D.length := by
          rcases List.get?_eq_some.mp hm with ⟨h, _⟩
          exact h
        have hrest : D.dropWhile (pred k) = D.drop d.data.length := by
          rw [hkm]
          exact hdrop d.data.length m hm
        have hpage : honestPage D (pred k) k
            = { models := (D.drop d.data.length).take 5,
                pagination := match D.drop (d.data.length + 5) with
                  | [] => none
                  | m :: _ => some ⟨m.key⟩ } := by
          simp only [honestPage, if_neg hkne, hrest, List.drop_drop]
        rw [hrefill, hpage]
        set n := d.data.length with hn
        set d' : DistantIter :=
          { d with
            data := d.data ++ (List.filter (inBounds d.start d.stop) ((D.drop n).take 5)),
            key := (match D.drop (n + 5) with
              | [] => none
              | m :: _ => some ⟨m.key⟩ : Option PageResponse).map (fun p => p.next_key) }
          with hd'
        have hdata' : d'.data = D.take (n + 5) := by
          rw [hd']; simp only; rw [hfilter, inv.hdata, ← hn, List.take_add]
        have hlen' : d'.data.length = min (n + 5) D.length := by
          rw [hdata', List.length_take]
        refine ⟨⟨inv.hstart, inv.hstop, inv.hrev, ?_, ?_, ?_, ?_, ?_⟩, rfl, ?_⟩
        · rw [hdata']; exact take_self_length D (n + 5)
        · omega
        · have hp : d'.position = d.position := rfl
          rw [hp, hguard.1, hlen']
          omega
        · intro hkn
          rcases hdropc : D.drop (n + 5) with _ | ⟨m', rest'⟩
          · have : D.length ≤ n + 5 := List.drop_eq_nil_iff_le.mp hdropc
            omega
          · rw [hd'] at hkn
            simp only [hdropc] at hkn
            cases hkn
        · intro k' hk'
          rcases hdropc : D.drop (n + 5) with _ | ⟨m', rest'⟩
          · rw [hd'] at hk'
            simp only [hdropc] at hk'
            cases hk'
          · have h5 : n + 5 < D.length := by
              rcases Nat.lt_or_ge (n + 5) D.length with h | h
              · exact h
              · rw [List.drop_eq_nil_iff_le.mpr h] at hdropc; cases hdropc
            refine Or.inr ⟨m', ?_, ?_⟩
            · have := List.get?_drop D (n + 5) 0
              rw [hdropc] at this
              simp only [List.get?] at this
              rw [hlen']
              have hmin : min (n + 5) D.length = n + 5 := by omega
              rw [hmin]
              exact this.symm
            · rw [hd'] at hk'
              simp only [hdropc] at hk'
              cases hk'
              rfl
        · rw [hguard.1, hdata', List.get?_take (by omega)]
    · have hrefill : d.refill fetch = d := by
        simp [DistantIter.refill, hk, if_neg hguard]
      rw [hrefill]
      refine ⟨inv, rfl, ?_⟩
      have hplt : d.position < d.data.length := by
        rcases Nat.lt_or_ge d.position d.data.length with h | h
        · exact h
        · exfalso
          have hpe : d.position = d.data.length := le_antisymm inv.hpos h
          rcases inv.hkey_some k hk with ⟨hn0, hkE⟩ | ⟨m, hm, hkm⟩
          · exact hguard ⟨hpe, Or.inl (by omega)⟩
          · exact hguard ⟨hpe, Or.inr (by rw [hkm]; exact hne m (List.get?_mem hm))⟩
      rw [inv.hdata, List.get?_take hplt]

lemma mergeAsc_nil_left (ds : List Record) : mergeAsc [] ds = ds := by
  cases ds <;> simp [mergeAsc]

lemma mergeAsc_nil_right (l : List Record) : mergeAsc l [] = l := by
  cases l <;> simp [mergeAsc]

lemma mergeAsc_cons_cons (l d : Record) (ls ds : List Record) :
    mergeAsc (l :: ls) (d :: ds) =
      if bytesToNat d.1 ≤ bytesToNat l.1 then d :: mergeAsc (l :: ls) ds
      else l :: mergeAsc ls (d :: ds) := by
  simp [mergeAsc]

lemma mergeDesc_nil_left (ds : List Record) : mergeDesc [] ds = ds := by
  cases ds <;> simp [mergeDesc]

lemma mergeDesc_nil_right (l : List Record) : mergeDesc l [] = l := by
  cases l <;> simp [mergeDesc]

lemma mergeDesc_cons_cons (l d : Record) (ls ds : List Record) :
    mergeDesc (l :: ls) (d :: ds) =
      if bytesToNat l.1 < bytesToNat d.1 then d :: mergeDesc (l :: ls) ds
      else l :: mergeDesc ls (d :: ds) := by
  simp [mergeDesc]

lemma MergeInv.bump {D : List Model} {rev : Bool} {d : DistantIter}
    (inv : MergeInv D rev d) (h : d.position < d.data.length) :
    MergeInv D rev { d with position := d.position + 1 } :=
  ⟨inv.hstart, inv.hstop, inv.hrev, inv.hdata, inv.hlen, h, inv.hkey_none, inv.hkey_some⟩

lemma drop_cons_of_get {α : Type} (L : List α) (n : Nat) (a : α) (h : L.get? n = some a) :
    L.drop n = a :: L.drop (n + 1) := by
  rcases List.get?_eq_some.mp h with ⟨hlt, hg⟩
  rw [List.drop_eq_get_cons hlt, hg]

lemma refill_asc (R : List Model) (hs : StrictAscChain R) (hne : KeysNonEmpty R)
    (d : DistantIter) (inv : MergeInv R false d) :
    MergeInv R false (d.refill (honestFetch R)) ∧
    (d.refill (honestFetch R)).position = d.position ∧
    (d.refill (honestFetch R)).data.get? d.position = R.get? d.position :=
  refill_honest R false (honestFetch R)
    (fun k m => decide (bytesToNat m.key < bytesToNat k)) hne
    (fun _ => rfl) (fun n m hm => dropWhile_asc R hs n m hm) d inv

lemma refill_desc (chain : List Model) (hs : StrictDescChain chain.reverse)
    (hne : KeysNonEmpty chain.reverse) (d : DistantIter)
    (inv : MergeInv chain.reverse true d) :
    MergeInv chain.reverse true (d.refill (honestFetch chain)) ∧
    (d.refill (honestFetch chain)).position = d.position ∧
    (d.refill (honestFetch chain)).data.get? d.position = chain.reverse.get? d.position :=
  refill_honest chain.reverse true (honestFetch chain)
    (fun k m => decide (bytesToNat k < bytesToNat m.key)) hne
    (fun _ => rfl) (fun n m hm => dropWhile_desc chain.reverse hs n m hm) d inv

lemma next_mk (fetch : Fetch) (d : DistantIter) (loc : List Record) :
    Iter.next fetch ⟨d, loc⟩ = Iter.emit (d.refill fetch) loc := rfl

lemma run_succ_some (fetch : Fetch) (f : Nat) (it it' : Iter) (r : Record)
    (h : Iter.next fetch it = (some r, it')) :
    Iter.run fetch (f + 1) it = r :: Iter.run fetch f it' := by
  have hrun : Iter.run fetch (f + 1) it
      = match Iter.next fetch it with
        | (none, _) => []
        | (some r, it') => r :: Iter.run fetch f it' := rfl
  rw [hrun, h]

lemma run_succ_none (fetch : Fetch) (f : Nat) (it it' : Iter)
    (h : Iter.next fetch it = (none, it')) :
    Iter.run fetch (f + 1) it = [] := by
  have hrun : Iter.run fetch (f + 1) it
      = match Iter.next fetch it with
        | (none, _) => []
        | (some r, it') => r :: Iter.run fetch f it' := rfl
  rw [hrun, h]

/-- Ascending full-range run of the merge iterator over an honest remote
chain equals the two-way ascending merge. -/
lemma run_asc (R : List Model) (hs : StrictAscChain R) (hne : KeysNonEmpty R) :
    ∀ (fuel : Nat) (loc : List Record) (d : DistantIter), MergeInv R false d →
      loc.length + (R.length - d.position) < fuel →
      Iter.run (honestFetch R) fuel ⟨d, loc⟩
        = mergeAsc loc ((R.drop d.position).map Model.record) := by
  intro fuel
  induction fuel with
  | zero =>
    intro loc d _ h
    omega
  | succ f ih =>
    intro loc d inv hfuel
    obtain ⟨inv', hpos', hget⟩ := refill_asc R hs hne d inv
    set d' := d.refill (honestFetch R) with hd'
    have hget2 : d'.data.get? d'.position = R.get? d.position := by
      rw [hpos']; exact hget
    cases loc with
    | nil =>
      cases hRm : R.get? d.position with
      | none =>
        have hemit : Iter.emit d' [] = (none, ⟨d', []⟩) := by
          simp only [Iter.emit]
          rw [hget2, hRm]
        have hnext : Iter.next (honestFetch R) ⟨d, []⟩ = (none, ⟨d', []⟩) := by
          rw [next_mk, ← hd']; exact hemit
        rw [run_succ_none (honestFetch R) f _ _ hnext,
          List.drop_eq_nil_iff_le.mpr (List.get?_eq_none.mp hRm), List.map_nil,
          mergeAsc_nil_left]
      | some m =>
        have hsome : d'.data.get? d'.position = some m := hget2.trans hRm
        rcases List.get?_eq_some.mp hRm with ⟨hposR, _⟩
        rcases List.get?_eq_some.mp hsome with ⟨hltd, _⟩
        have hemit : Iter.emit d' []
            = (some (m.key, m.value), ⟨{ d' with position := d'.position + 1 }, []⟩) := by
          simp only [Iter.emit]
          rw [hsome]
        have hnext : Iter.next (honestFetch R) ⟨d, []⟩
            = (some (m.key, m.value), ⟨{ d' with position := d'.position + 1 }, []⟩) := by
          rw [next_mk, ← hd']; exact hemit
        rw [run_succ_some (honestFetch R) f _ _ _ hnext]
        have hdp : ({ d' with position := d'.position + 1 } : DistantIter).position
            = d.position + 1 := by
          rw [show ({ d' with position := d'.position + 1 } : DistantIter).position
              = d'.position + 1 from rfl, hpos']
        rw [ih [] { d' with position := d'.position + 1 } (inv'.bump hltd)
          (by rw [hdp]; simp only [List.length_nil]; omega)]
        rw [hdp, mergeAsc_nil_left, mergeAsc_nil_left,
          drop_cons_of_get R d.position m hRm, List.map_cons]
        rfl
    | cons l ls =>
      simp only [List.length_cons] at hfuel
      cases hRm : R.get? d.position with
      | none =>
        have hemit : Iter.emit d' (l :: ls) = (some l, ⟨d', ls⟩) := by
          simp only [Iter.emit]
          rw [hget2, hRm]
        have hnext : Iter.next (honestFetch R) ⟨d, l :: ls⟩ = (some l, ⟨d', ls⟩) := by
          rw [next_mk, ← hd']; exact hemit
        rw [run_succ_some (honestFetch R) f _ _ _ hnext,
          List.drop_eq_nil_iff_le.mpr (List.get?_eq_none.mp hRm), List.map_nil,
          mergeAsc_nil_right]
        congr 1
        rw [ih ls d' inv' (by rw [hpos']; omega), hpos',
          List.drop_eq_nil_iff_le.mpr (List.get?_eq_none.mp hRm), List.map_nil,
          mergeAsc_nil_right]
      | some m =>
        have hsome : d'.data.get? d'.position = some m := hget2.trans hRm
        rcases List.get?_eq_some.mp hRm with ⟨hposR, _⟩
        rcases List.get?_eq_some.mp hsome with ⟨hltd, _⟩
        by_cases hcmp : bytesToNat l.1 < bytesToNat m.key
        · -- the local head is strictly earlier: it is emitted
          have hemit : Iter.emit d' (l :: ls) = (some l, ⟨d', ls⟩) := by
            simp only [Iter.emit]
            rw [hsome, inv'.hrev]
            simp [decide_eq_true hcmp]
          have hnext : Iter.next (honestFetch R) ⟨d, l :: ls⟩ = (some l, ⟨d', ls⟩) := by
            rw [next_mk, ← hd']; exact hemit
          rw [run_succ_some (honestFetch R) f _ _ _ hnext,
            drop_cons_of_get R d.position m hRm, List.map_cons,
            mergeAsc_cons_cons, if_neg (by simp only [Model.record]; omega)]
          congr 1
          rw [ih ls d' inv' (by rw [hpos']; omega), hpos',
            drop_cons_of_get R d.position m hRm, List.map_cons]
        · -- the remote entry is emitted and only the remote side advances
          have hemit : Iter.emit d' (l :: ls)
              = (some (m.key, m.value),
                 ⟨{ d' with position := d'.position + 1 }, l :: ls⟩) := by
            simp only [Iter.emit]
            rw [hsome, inv'.hrev]
            simp [decide_eq_false hcmp]
          have hnext : Iter.next (honestFetch R) ⟨d, l :: ls⟩
              = (some (m.key, m.value),
                 ⟨{ d' with position := d'.position + 1 }, l :: ls⟩) := by
            rw [next_mk, ← hd']; exact hemit
          rw [run_succ_some (honestFetch R) f _ _ _ hnext,
            drop_cons_of_get R d.position m hRm, List.map_cons,
            mergeAsc_cons_cons, if_pos (by simp only [Model.record]; omega)]
          have hdp : ({ d' with position := d'.position + 1 } : DistantIter).position
              = d.position + 1 := by
            rw [show ({ d' with position := d'.position + 1 } : DistantIter).position
                = d'.position + 1 from rfl, hpos']
          rw [ih (l :: ls) { d' with position := d'.position + 1 } (inv'.bump hltd)
            (by rw [hdp]; simp only [List.length_cons]; omega)]
          rw [hdp]
          rfl

/-- Descending full-range run of the merge iterator over an honest remote
chain equals the two-way descending merge over the reversed chain. -/
lemma run_desc (chain : List Model) (hs : StrictDescChain chain.reverse)
    (hne : KeysNonEmpty chain.reverse) :
    ∀ (fuel : Nat) (loc : List Record) (d : DistantIter), MergeInv chain.reverse true d →
      loc.length + (chain.reverse.length - d.position) < fuel →
      Iter.run (honestFetch chain) fuel ⟨d, loc⟩
        = mergeDesc loc ((chain.reverse.drop d.position).map Model.record) := by
  intro fuel
  induction fuel with
  | zero =>
    intro loc d _ h
    omega
  | succ f ih =>
    intro loc d inv hfuel
    obtain ⟨inv', hpos', hget⟩ := refill_desc chain hs hne d inv
    set d' := d.refill (honestFetch chain) with hd'
    have hget2 : d'.data.get? d'.position = chain.reverse.get? d.position := by
      rw [hpos']; exact hget
    cases loc with
    | nil =>
      cases hRm : chain.reverse.get? d.position with
      | none =>
        have hemit : Iter.emit d' [] = (none, ⟨d', []⟩) := by
          simp only [Iter.emit]
          rw [hget2, hRm]
        have hnext : Iter.next (honestFetch chain) ⟨d, []⟩ = (none, ⟨d', []⟩) := by
          rw [next_mk, ← hd']; exact hemit
        rw [run_succ_none (honestFetch chain) f _ _ hnext,
          List.drop_eq_nil_iff_le.mpr (List.get?_eq_none.mp hRm), List.map_nil,
          mergeDesc_nil_left]
      | some m =>
        have hsome : d'.data.get? d'.position = some m := hget2.trans hRm
        rcases List.get?_eq_some.mp hRm with ⟨hposR, _⟩
        rcases List.get?_eq_some.mp hsome with ⟨hltd, _⟩
        have hemit : Iter.emit d' []
            = (some (m.key, m.value), ⟨{ d' with position := d'.position + 1 }, []⟩) := by
          simp only [Iter.emit]
          rw [hsome]
        have hnext : Iter.next (honestFetch chain) ⟨d, []⟩
            = (some (m.key, m.value), ⟨{ d' with position := d'.position + 1 }, []⟩) := by
          rw [next_mk, ← hd']; exact hemit
        rw [run_succ_some (honestFetch chain) f _ _ _ hnext]
        have hdp : ({ d' with position := d'.position + 1 } : DistantIter).position
            = d.position + 1 := by
          rw [show ({ d' with position := d'.position + 1 } : DistantIter).position
              = d'.position + 1 from rfl, hpos']
        rw [ih [] { d' with position := d'.position + 1 } (inv'.bump hltd)
          (by rw [hdp]; simp only [List.length_nil]; omega)]
        rw [hdp, mergeDesc_nil_left, mergeDesc_nil_left,
          drop_cons_of_get chain.reverse d.position m hRm, List.map_cons]
        rfl
    | cons l ls =>
      simp only [List.length_cons] at hfuel
      cases hRm : chain.reverse.get? d.position with
      | none =>
        have hemit : Iter.emit d' (l :: ls) = (some l, ⟨d', ls⟩) := by
          simp only [Iter.emit]
          rw [hget2, hRm]
        have hnext : Iter.next (honestFetch chain) ⟨d, l :: ls⟩ = (some l, ⟨d', ls⟩) := by
          rw [next_mk, ← hd']; exact hemit
        rw [run_succ_some (honestFetch chain) f _ _ _ hnext,
          List.drop_eq_nil_iff_le.mpr (List.get?_eq_none.mp hRm), List.map_nil,
          mergeDesc_nil_right]
        congr 1
        rw [ih ls d' inv' (by rw [hpos']; omega), hpos',
          List.drop_eq_nil_iff_le.mpr (List.get?_eq_none.mp hRm), List.map_nil,
          mergeDesc_nil_right]
      | some m =>
        have hsome : d'.data.get? d'.position = some m := hget2.trans hRm
        rcases List.get?_eq_some.mp hRm with ⟨hposR, _⟩
        rcases List.get?_eq_some.mp hsome with ⟨hltd, _⟩
        by_cases hcmp : bytesToNat l.1 < bytesToNat m.key
        · -- descending: a numerically larger remote entry is emitted first
          have hemit : Iter.emit d' (l :: ls)
              = (some (m.key, m.value),
                 ⟨{ d' with position := d'.position + 1 }, l :: ls⟩) := by
            simp only [Iter.emit]
            rw [hsome, inv'.hrev]
            simp [decide_eq_true hcmp]
          have hnext : Iter.next (honestFetch chain) ⟨d, l :: ls⟩
              = (some (m.key, m.value),
                 ⟨{ d' with position := d'.position + 1 }, l :: ls⟩) := by
            rw [next_mk, ← hd']; exact hemit
          rw [run_succ_some (honestFetch chain) f _ _ _ hnext,
            drop_cons_of_get chain.reverse d.position m hRm, List.map_cons,
            mergeDesc_cons_cons, if_pos (by simp only [Model.record]; omega)]
          have hdp : ({ d' with position := d'.position + 1 } : DistantIter).position
              = d.position + 1 := by
            rw [show ({ d' with position := d'.position + 1 } : DistantIter).position
                = d'.position + 1 from rfl, hpos']
          rw [ih (l :: ls) { d' with position := d'.position + 1 } (inv'.bump hltd)
            (by rw [hdp]; simp only [List.length_cons]; omega)]
          rw [hdp]
          rfl
        · -- descending: the local head is not smaller, it is emitted
          have hemit : Iter.emit d' (l :: ls) = (some l, ⟨d', ls⟩) := by
            simp only [Iter.emit]
            rw [hsome, inv'.hrev]
            simp [decide_eq_false hcmp]
          have hnext : Iter.next (honestFetch chain) ⟨d, l :: ls⟩ = (some l, ⟨d', ls⟩) := by
            rw [next_mk, ← hd']; exact hemit
          rw [run_succ_some (honestFetch chain) f _ _ _ hnext,
            drop_cons_of_get chain.reverse d.position m hRm, List.map_cons,
            mergeDesc_cons_cons, if_neg (by simp only [Model.record]; omega)]
          congr 1
          rw [ih ls d' inv' (by rw [hpos']; omega), hpos',
            drop_cons_of_get chain.reverse d.position m hRm, List.map_cons]

/-- The `DistantIter` built by `DualStorage.range` for a full-range query
satisfies the merge invariant for any chain. -/
lemma init_inv (D : List Model) (rev : Bool) :
    MergeInv D rev
      { data := [], position := 0, key := some [], start := none, stop := none,
        reverse := rev } := by
  refine ⟨rfl, rfl, rfl, rfl, Nat.zero_le _, Nat.le_refl _, ?_, ?_⟩
  · intro h
    cases h
  · intro k hk
    injection hk with hk
    exact Or.inl ⟨rfl, hk.symm⟩

lemma sortedAsc_last (l₀ : List Record) (a : Record) (h : SortedAscRec (l₀ ++ [a])) :
    ∀ x ∈ l₀ ++ [a], bytesToNat x.1 ≤ bytesToNat a.1 := by
  intro x hx
  rcases List.mem_append.mp hx with hx | hx
  · exact (List.pairwise_append.mp h).2.2 x hx a (by simp)
  · simp at hx
    subst hx
    exact le_refl _

lemma sortedAsc_front (l₀ : List Record) (a : Record) (h : SortedAscRec (l₀ ++ [a])) :
    SortedAscRec l₀ :=
  (List.pairwise_append.mp h).1

lemma mergeAsc_append_right (b : Record) :
    ∀ (r l : List Record), (∀ x ∈ l, bytesToNat x.1 < bytesToNat b.1) →
    mergeAsc l (r ++ [b]) = mergeAsc l r ++ [b] := by
  intro r
  induction r with
  | nil =>
    intro l h
    rw [mergeAsc_nil_right, List.nil_append]
    induction l with
    | nil => rw [mergeAsc_nil_left, List.nil_append]
    | cons x xs ihl =>
      rw [mergeAsc_cons_cons, if_neg (not_le.mpr (h x (by simp)))]
      rw [ihl (fun y hy => h y (by simp [hy])), List.cons_append]
  | cons y ys ihr =>
    intro l h
    induction l with
    | nil => rw [mergeAsc_nil_left, mergeAsc_nil_left, List.cons_append]
    | cons x xs ihl =>
      rw [List.cons_append, mergeAsc_cons_cons]
      by_cases hxy : bytesToNat y.1 ≤ bytesToNat x.1
      · rw [if_pos hxy, ihr (x :: xs) h, mergeAsc_cons_cons, if_pos hxy, List.cons_append]
      · rw [if_neg hxy,
          show y :: (ys ++ [b]) = (y :: ys) ++ [b] from (List.cons_append y ys [b]).symm,
          ihl (fun z hz => h z (by simp [hz])), mergeAsc_cons_cons, if_neg hxy,
          List.cons_append]

lemma mergeAsc_append_left (a : Record) :
    ∀ (r l : List Record), (∀ y ∈ r, bytesToNat y.1 ≤ bytesToNat a.1) →
    mergeAsc (l ++ [a]) r = mergeAsc l r ++ [a] := by
  intro r
  induction r with
  | nil =>
    intro l _
    rw [mergeAsc_nil_right, mergeAsc_nil_right]
  | cons y ys ihr =>
    intro l h
    induction l with
    | nil =>
      rw [List.nil_append, mergeAsc_nil_left, mergeAsc_cons_cons,
        if_pos (h y (by simp))]
      have hih := ihr [] (fun z hz => h z (by simp [hz]))
      rw [List.nil_append, mergeAsc_nil_left] at hih
      rw [hih, List.cons_append]
    | cons x xs ihl =>
      rw [List.cons_append, mergeAsc_cons_cons]
      by_cases hxy : bytesToNat y.1 ≤ bytesToNat x.1
      · rw [if_pos hxy]
        have hih := ihr (x :: xs) (fun z hz => h z (by simp [hz]))
        rw [List.cons_append] at hih
        rw [hih, mergeAsc_cons_cons, if_pos hxy, List.cons_append]
      · rw [if_neg hxy, ihl, mergeAsc_cons_cons, if_neg hxy, List.cons_append]

/-- Descending merge of the reversed streams is the reverse of the
ascending merge, for sorted inputs (ties included). -/
lemma mergeDesc_reverse (l r : List Record) (hl : SortedAscRec l) (hr : SortedAscRec r) :
    mergeDesc l.reverse r.reverse = (mergeAsc l r).reverse := by
  rcases List.eq_nil_or_concat l with hlnil | ⟨l₀, a, hla⟩
  · subst hlnil
    rw [List.reverse_nil, mergeDesc_nil_left, mergeAsc_nil_left]
  · rcases List.eq_nil_or_concat r with hrnil | ⟨r₀, b, hrb⟩
    · subst hrnil
      rw [List.reverse_nil, mergeDesc_nil_right, mergeAsc_nil_right]
    · have hla' : l = l₀ ++ [a] := by rw [hla, List.concat_eq_append]
      have hrb' : r = r₀ ++ [b] := by rw [hrb, List.concat_eq_append]
      rw [hla'] at hl
      rw [hrb'] at hr
      rw [hla', hrb', List.reverse_append, List.reverse_append]
      simp only [List.reverse_singleton, List.singleton_append]
      rw [mergeDesc_cons_cons]
      by_cases hab : bytesToNat a.1 < bytesToNat b.1
      · rw [if_pos hab]
        have hrec := mergeDesc_reverse (l₀ ++ [a]) r₀
          hl (sortedAsc_front r₀ b hr)
        rw [List.reverse_append] at hrec
        simp only [List.reverse_singleton, List.singleton_append] at hrec
        rw [hrec]
        rw [mergeAsc_append_right b r₀ (l₀ ++ [a])
          (fun x hx => lt_of_le_of_lt (sortedAsc_last l₀ a hl x hx) hab)]
        rw [List.reverse_append]
        simp
      · rw [if_neg hab]
        have hrec := mergeDesc_reverse l₀ (r₀ ++ [b])
          (sortedAsc_front l₀ a hl) hr
        rw [List.reverse_append] at hrec
        simp only [List.reverse_singleton, List.singleton_append] at hrec
        rw [hrec]
        rw [mergeAsc_append_left a (r₀ ++ [b]) l₀
          (fun y hy => le_trans (sortedAsc_last r₀ b hr y hy) (not_lt.mp hab))]
        rw [List.reverse_append]
        simp
termination_by l.length + r.length
decreasing_by
  · rw [hla', hrb']
    simp [List.length_append]
  · rw [hla', hrb']
    simp [List.length_append]

/-! ### Claim-level lemmas for the dual storage -/

lemma range_asc_init (ds : DualStorage) :
    ds.range none none Order.ascending =
      ⟨{ data := [], position := 0, key := some [], start := none, stop := none,
         reverse := false },
       memRange ds.local_storage none none Order.ascending⟩ := rfl

lemma range_desc_init (ds : DualStorage) :
    ds.range none none Order.descending =
      ⟨{ data := [], position := 0, key := some [], start := none, stop := none,
         reverse := true },
       memRange ds.local_storage none none Order.descending⟩ := rfl

/-- A failing page fetch behaves as an empty final page: the remote side
ends and the run returns exactly the local records. -/
lemma run_failFetch : ∀ (fuel : Nat) (loc : List Record) (d : DistantIter),
    d.data = [] → d.position = 0 → loc.length < fuel →
    Iter.run failFetch fuel ⟨d, loc⟩ = loc := by
  intro fuel
  induction fuel with
  | zero =>
    intro loc d _ _ h
    omega
  | succ f ih =>
    intro loc d hdata hpos hfuel
    have hd' : ∀ d2 : DistantIter, d2 = d.refill failFetch →
        d2.data = [] ∧ d2.position = 0 := by
      intro d2 h2
      cases hk : d.key with
      | none =>
        simp only [DistantIter.refill, hk] at h2
        rw [h2]
        exact ⟨hdata, hpos⟩
      | some k =>
        by_cases hguard : d.position = d.data.length ∧ (d.position = 0 ∨ k ≠ [])
        · simp only [DistantIter.refill, hk, if_pos hguard] at h2
          rw [h2]
          constructor
          · rw [hdata]
            rfl
          · exact hpos
        · simp only [DistantIter.refill, hk, if_neg hguard] at h2
          rw [h2]
          exact ⟨hdata, hpos⟩
    obtain ⟨hdata', hpos'⟩ := hd' _ rfl
    have hnone : (d.refill failFetch).data.get? (d.refill failFetch).position = none := by
      rw [hdata']
      exact List.get?_len_le (by simp)
    cases loc with
    | nil =>
      have hnext : Iter.next failFetch ⟨d, []⟩ = (none, ⟨d.refill failFetch, []⟩) := by
        rw [next_mk]
        simp only [Iter.emit]
        rw [hnone]
      rw [run_succ_none failFetch f _ _ hnext]
    | cons l ls =>
      have hnext : Iter.next failFetch ⟨d, l :: ls⟩ = (some l, ⟨d.refill failFetch, ls⟩) := by
        rw [next_mk]
        simp only [Iter.emit]
        rw [hnone]
      rw [run_succ_some failFetch f _ _ _ hnext]
      simp only [List.length_cons] at hfuel
      rw [ih ls (d.refill failFetch) hdata' hpos' (by omega)]

lemma strictAsc_sorted_records (R : List Model) (hs : StrictAscChain R) :
    SortedAscRec (R.map Model.record) := by
  rw [SortedAscRec, List.pairwise_map]
  exact hs.imp (fun h => le_of_lt h)


/-! ### Claims C1 to C4 -/

/-- C1: evaluation at the failing input. With key `[1]` removed locally
via `remove` and still stored remotely as `([1],[42])`, the point read is
absent as the claim states, but a full ascending range still emits the
removed key with the remote value: removed keys are not filtered out of
the range merge. -/
theorem claim_C1_removed_key_eval :
    ((DualStorage.new [([1],[7])]).remove [1]).get (fun _ => .ok [42]) [1] = none ∧
    ((DualStorage.new [([1],[7])]).remove [1]).removed_keys = [[1]] ∧
    Iter.run (honestFetch [⟨[1],[42]⟩]) 10
      (((DualStorage.new [([1],[7])]).remove [1]).range none none Order.ascending)
      = [([1],[42])] := by
  refine ⟨?_, ?_, ?_⟩ <;> decide

/-- C2: evaluation at the failing input. With a local write `([2],[20])`
and a remote entry `([2],[99])` under the same key, the ascending range
emits the remote value first and then the local one — the remote entry is
not skipped on a tie — and the descending range emits both in the
opposite order. -/
theorem claim_C2_tie_eval :
    Iter.run (honestFetch [⟨[2],[99]⟩]) 10
      ((DualStorage.new [([2],[20])]).range none none Order.ascending)
      = [([2],[99]), ([2],[20])] ∧
    Iter.run (honestFetch [⟨[2],[99]⟩]) 10
      ((DualStorage.new [([2],[20])]).range none none Order.descending)
      = [([2],[20]), ([2],[99])] := by
  refine ⟨?_, ?_⟩ <;> decide

/-- C3 counterexample: a remote failure while fetching a range page is
not a hard error; the run completes normally and is indistinguishable
from a successful run against an empty remote chain. -/
theorem claim_C3_paging_error_counterexample :
    Iter.run failFetch 10
      ((DualStorage.new [([2],[20])]).range none none Order.ascending)
      = [([2],[20])] ∧
    Iter.run failFetch 10
      ((DualStorage.new [([2],[20])]).range none none Order.ascending)
      = Iter.run (honestFetch []) 10
          ((DualStorage.new [([2],[20])]).range none none Order.ascending) := by
  refine ⟨?_, ?_⟩ <;> decide

/-- C3 (amended): both remote-failure paths are swallowed. A remote
failure on a point read leaves the local result, so a local miss resolves
to absent; a remote failure while paging a range behaves as an empty
final page and the iteration returns exactly the local records. -/
theorem claim_C3_amended_failure_policy :
    (∀ (ds : DualStorage) (key : Bytes),
      ds.get (fun _ => .error ()) key = memGet ds.local_storage key) ∧
    (∀ (ds : DualStorage) (order : Order) (fuel : Nat),
      (memRange ds.local_storage none none order).length < fuel →
      Iter.run failFetch fuel (ds.range none none order)
        = memRange ds.local_storage none none order) := by
  constructor
  · intro ds key
    simp [DualStorage.get]
  · intro ds order fuel hf
    cases order with
    | ascending =>
      rw [range_asc_init]
      exact run_failFetch fuel _ _ rfl rfl hf
    | descending =>
      rw [range_desc_init]
      exact run_failFetch fuel _ _ rfl rfl hf

/-- Witness for C3: the amended failure policy at a concrete store. -/
theorem claim_C3_amended_witness :
    (DualStorage.new [([2],[20])]).get (fun _ => .error ()) [2]
        = memGet (DualStorage.new [([2],[20])]).local_storage [2] ∧
    Iter.run failFetch 10
        ((DualStorage.new [([2],[20])]).range none none Order.ascending)
        = memRange (DualStorage.new [([2],[20])]).local_storage none none
            Order.ascending :=
  ⟨claim_C3_amended_failure_policy.1 (DualStorage.new [([2],[20])]) [2],
   claim_C3_amended_failure_policy.2 (DualStorage.new [([2],[20])]) Order.ascending 10
     (by decide)⟩

/-- C4: a full ascending range over dual storage emits the two-way merge
of the local iterator and the honestly paged remote iterator, ordered by
the numeric value of each key (its equal-length zero-padded big-endian
unsigned reading); descending emits the descending merge over the
reversed chain, which for sorted local records is exactly the reverse of
the ascending output; in particular, local keys {2,4} with remote keys
{1,3,5} yield [1,2,3,4,5] ascending and the reverse descending. -/
theorem claim_C4_range_merge_order :
    (∀ (R : List Model) (loc : List Record) (fuel : Nat),
      StrictAscChain R → KeysNonEmpty R → loc.length + R.length < fuel →
      Iter.run (honestFetch R) fuel
        ⟨{ data := [], position := 0, key := some [], start := none, stop := none,
           reverse := false }, loc⟩
        = mergeAsc loc (R.map Model.record)) ∧
    (∀ (R : List Model) (loc : List Record) (fuel : Nat),
      StrictAscChain R → KeysNonEmpty R → loc.length + R.length < fuel →
      Iter.run (honestFetch R) fuel
        ⟨{ data := [], position := 0, key := some [], start := none, stop := none,
           reverse := true }, loc⟩
        = mergeDesc loc (R.reverse.map Model.record)) ∧
    (∀ (R : List Model) (loc : List Record) (fuel : Nat),
      StrictAscChain R → KeysNonEmpty R → SortedAscRec loc →
      loc.length + R.length < fuel →
      Iter.run (honestFetch R) fuel
        ⟨{ data := [], position := 0, key := some [], start := none, stop := none,
           reverse := true }, loc.reverse⟩
        = (Iter.run (honestFetch R) fuel
            ⟨{ data := [], position := 0, key := some [], start := none, stop := none,
               reverse := false }, loc⟩).reverse) ∧
    (Iter.run (honestFetch [⟨[1],[10]⟩, ⟨[3],[30]⟩, ⟨[5],[50]⟩]) 10
        ((DualStorage.new [([2],[20]), ([4],[40])]).range none none Order.ascending)
      = [([1],[10]), ([2],[20]), ([3],[30]), ([4],[40]), ([5],[50])]) ∧
    (Iter.run (honestFetch [⟨[1],[10]⟩, ⟨[3],[30]⟩, ⟨[5],[50]⟩]) 10
        ((DualStorage.new [([2],[20]), ([4],[40])]).range none none Order.descending)
      = [([5],[50]), ([4],[40]), ([3],[30]), ([2],[20]), ([1],[10])]) := by
  have hdesc : ∀ (R : List Model) (loc : List Record) (fuel : Nat),
      StrictAscChain R → KeysNonEmpty R → loc.length + R.length < fuel →
      Iter.run (honestFetch R) fuel
        ⟨{ data := [], position := 0, key := some [], start := none, stop := none,
           reverse := true }, loc⟩
        = mergeDesc loc (R.reverse.map Model.record) := by
    intro R loc fuel hs hne hf
    have hsd : StrictDescChain R.reverse := by
      rw [StrictDescChain, List.pairwise_reverse]
      exact hs
    have hned : KeysNonEmpty R.reverse := fun m hm => hne m (List.mem_reverse.mp hm)
    rw [run_desc R hsd hned fuel loc _ (init_inv R.reverse true)
      (by simp only [List.length_reverse]; simpa using hf)]
    rw [List.drop_zero]
  have hasc : ∀ (R : List Model) (loc : List Record) (fuel : Nat),
      StrictAscChain R → KeysNonEmpty R → loc.length + R.length < fuel →
      Iter.run (honestFetch R) fuel
        ⟨{ data := [], position := 0, key := some [], start := none, stop := none,
           reverse := false }, loc⟩
        = mergeAsc loc (R.map Model.record) := by
    intro R loc fuel hs hne hf
    rw [run_asc R hs hne fuel loc _ (init_inv R false) (by simpa using hf)]
    rw [List.drop_zero]
  refine ⟨hasc, hdesc, ?_, ?_, ?_⟩
  · intro R loc fuel hs hne hloc hf
    rw [hasc R loc fuel hs hne hf,
      hdesc R loc.reverse fuel hs hne (by simpa using hf)]
    rw [List.map_reverse]
    exact mergeDesc_reverse loc (R.map Model.record) hloc (strictAsc_sorted_records R hs)
  · decide
  · decide

/-- Witness for C4: the merge theorem applied to the spec's own example. -/
theorem claim_C4_witness :
    Iter.run (honestFetch [⟨[1],[10]⟩, ⟨[3],[30]⟩, ⟨[5],[50]⟩]) 10
      ⟨{ data := [], position := 0, key := some [], start := none, stop := none,
         reverse := false }, [([2],[20]), ([4],[40])]⟩
      = mergeAsc [([2],[20]), ([4],[40])]
          ([⟨[1],[10]⟩, ⟨[3],[30]⟩, ⟨[5],[50]⟩].map Model.record) :=
  claim_C4_range_merge_order.1 [⟨[1],[10]⟩, ⟨[3],[30]⟩, ⟨[5],[50]⟩]
    [([2],[20]), ([4],[40])] 10 (by unfold StrictAscChain; decide)
    (by unfold KeysNonEmpty; decide) (by decide)


/-! ### Claim C5: submessage reply dispatch -/

/-- C5: for a submessage executed from a contract response: success under
policy Success/Always dispatches exactly one Reply carrying the
submessage's events and data; failure under Error/Always dispatches
exactly one Reply carrying the error text and the parent continues with
the reply's outcome; failure under Never/Success aborts with that error
and dispatches no Reply; success under Never/Error dispatches no Reply
(and the submessage data is dropped). -/
theorem claim_C5_submsg_reply_dispatch (id : Nat) (payload : Bytes)
    (reply_on : ReplyOn) (res : Except String AppResponse)
    (replyFn : Reply → Except String AppResponse) :
    (∀ r, res = .ok r →
      (reply_on = ReplyOn.success ∨ reply_on = ReplyOn.always) →
      (execute_submsg id payload reply_on res replyFn).2
        = [{ id := id, payload := payload, gas_used := 0,
             result := SubMsgResult.ok { events := r.events, data := r.data } }]) ∧
    (∀ e, res = .error e →
      (reply_on = ReplyOn.error ∨ reply_on = ReplyOn.always) →
      (execute_submsg id payload reply_on res replyFn).2
        = [{ id := id, payload := payload, gas_used := 0,
             result := SubMsgResult.err e }] ∧
      ∀ rr, replyFn { id := id, payload := payload, gas_used := 0,
                      result := SubMsgResult.err e } = .ok rr →
        (execute_submsg id payload reply_on res replyFn).1 = .ok rr) ∧
    (∀ e, res = .error e →
      (reply_on = ReplyOn.never ∨ reply_on = ReplyOn.success) →
      (execute_submsg id payload reply_on res replyFn).1 = .error e ∧
      (execute_submsg id payload reply_on res replyFn).2 = []) ∧
    (∀ r, res = .ok r →
      (reply_on = ReplyOn.never ∨ reply_on = ReplyOn.error) →
      (execute_submsg id payload reply_on res replyFn).2 = [] ∧
      (execute_submsg id payload reply_on res replyFn).1
        = .ok { events := r.events, data := none }) := by
  refine ⟨?_, ?_, ?_, ?_⟩
  · rintro r rfl (rfl | rfl) <;>
    · cases hrf : replyFn ⟨id, payload, 0, SubMsgResult.ok ⟨r.events, r.data⟩⟩ <;>
        simp [execute_submsg, hrf]
  · rintro e rfl (rfl | rfl) <;>
    · refine ⟨?_, ?_⟩
      · cases hrf : replyFn ⟨id, payload, 0, SubMsgResult.err e⟩ <;>
          simp [execute_submsg, hrf]
      · intro rr hok
        simp [execute_submsg, hok]
  · rintro e rfl (rfl | rfl) <;> simp [execute_submsg]
  · rintro r rfl (rfl | rfl) <;> simp [execute_submsg]

/-- Witness for C5: a succeeding Success-policy submessage dispatches
exactly one Reply with its events and data. -/
theorem claim_C5_witness :
    (execute_submsg 7 [1] ReplyOn.success
        (.ok { events := [], data := some [9] })
        (fun _ => .ok { events := [], data := none })).2
      = [{ id := 7, payload := [1], gas_used := 0,
           result := SubMsgResult.ok { events := [], data := some [9] } }] :=
  (claim_C5_submsg_reply_dispatch 7 [1] ReplyOn.success
      (.ok { events := [], data := some [9] })
      (fun _ => .ok { events := [], data := none })).1
    { events := [], data := some [9] } rfl (Or.inl rfl)

/-! ### Claims C6 and C7: registry and admin operations -/

lemma find?_append_none {α : Type} (p : α → Bool) (l1 l2 : List α)
    (h : l1.find? p = none) : (l1 ++ l2).find? p = l2.find? p := by
  induction l1 with
  | nil => simp
  | cons x xs ih =>
    by_cases hx : p x
    · rw [List.find?_cons_of_pos _ hx] at h
      cases h
    · rw [List.find?_cons_of_neg _ hx] at h
      rw [List.cons_append, List.find?_cons_of_neg _ hx]
      exact ih h

lemma find?_none_of_any_false {α : Type} (p : α → Bool) (l : List α)
    (h : l.any p = false) : l.find? p = none := by
  rw [List.find?_eq_none]
  intro x hx hpx
  rw [List.any_eq_false] at h
  exact h x hx hpx

lemma any_false_of_find?_none {α : Type} (p : α → Bool) (l : List α)
    (h : l.find? p = none) : l.any p = false := by
  rw [List.any_eq_false]
  rw [List.find?_eq_none] at h
  exact h

lemma contract_data_not_ok_find (remote : WasmRemote) (st : WasmState) (address : Addr)
    (h : (wasm_contract_data remote st address).isOk = false) :
    st.contracts.find? (fun c => c.1 = address) = none := by
  unfold wasm_contract_data at h
  cases hf : st.contracts.find? (fun c => c.1 = address) with
  | none => rfl
  | some c =>
    rw [hf] at h
    simp [Except.isOk, Except.toBool] at h

lemma find?_map_replace (l : List (Addr × ContractData)) (address : Addr)
    (c : ContractData) (h : l.any (fun x => x.1 = address) = true) :
    (l.map (fun x => if x.1 = address then (address, c) else x)).find?
        (fun x => x.1 = address) = some (address, c) := by
  induction l with
  | nil => simp at h
  | cons x xs ih =>
    by_cases hx : x.1 = address
    · simp only [List.map_cons, if_pos hx]
      rw [List.find?_cons_of_pos _ (by simp)]
    · simp only [List.map_cons, if_neg hx]
      rw [List.find?_cons_of_neg _ (by simp [hx])]
      rw [List.any_cons] at h
      simp [hx] at h
      exact ih (by simp [h])

lemma save_contract_lookup (st : WasmState) (address : Addr) (c : ContractData) :
    (save_contract st address c).contracts.find? (fun x => x.1 = address)
      = some (address, c) := by
  unfold save_contract
  by_cases hany : st.contracts.any (fun x => x.1 = address) = true
  · simp only [hany, if_true]
    exact find?_map_replace st.contracts address c hany
  · have hany2 : st.contracts.any (fun x => x.1 = address) = false :=
      Bool.eq_false_iff.mpr hany
    simp only [hany2, Bool.false_eq_true, if_false]
    rw [find?_append_none _ _ _ (find?_none_of_any_false _ _ hany2)]
    rw [List.find?_cons_of_pos _ (by simp)]

lemma wasm_contract_data_save (remote : WasmRemote) (st : WasmState)
    (address : Addr) (c : ContractData) :
    wasm_contract_data remote (save_contract st address c) address = .ok c := by
  unfold wasm_contract_data
  rw [save_contract_lookup]
  rfl

lemma wasm_code_data_save (remote : WasmRemote) (st : WasmState) (address : Addr)
    (c : ContractData) (code_id : Nat) :
    wasm_code_data remote (save_contract st address c) code_id
      = wasm_code_data remote st code_id := rfl

lemma register_none_ok (remote : WasmRemote) (st : WasmState) (code_id : Nat)
    (creator : Addr) (admin : Option Addr) (a : Addr) (st2 : WasmState)
    (h : register_contract remote st code_id creator admin none = .ok (a, st2)) :
    a = Addr.seq st.contracts.length ∧
    st2.contracts.length = st.contracts.length + 1 := by
  unfold register_contract at h
  simp only [bind, Except.bind, pure, Except.pure] at h
  by_cases hok : (wasm_contract_data remote st
      (sim_contract_address (wasm_instance_count st))).isOk = true
  · rw [if_pos hok] at h
    cases h
  · have hok2 := Bool.eq_false_iff.mpr hok
    rw [if_neg hok] at h
    injection h with h
    injection h with ha hst
    refine ⟨ha.symm, ?_⟩
    have hfind := contract_data_not_ok_find remote st _ hok2
    have hany := any_false_of_find?_none _ _ hfind
    rw [← hst]
    unfold save_contract
    simp only [hany, Bool.false_eq_true, if_false, List.length_append,
      List.length_singleton]

lemma register_some_ok (remote : WasmRemote) (st : WasmState) (code_id : Nat)
    (creator : Addr) (admin : Option Addr) (salt : Bytes) (a : Addr) (st2 : WasmState)
    (h : register_contract remote st code_id creator admin (some salt) = .ok (a, st2)) :
    ∃ cd, wasm_code_data remote st code_id = .ok cd ∧
      a = Addr.predictable creator cd.checksum salt ∧
      (wasm_contract_data remote st a).isOk = false ∧
      st2 = save_contract st a
        { code_id := code_id, creator := creator, admin := admin } := by
  unfold register_contract at h
  simp only [bind, Except.bind, pure, Except.pure] at h
  cases hcd : wasm_code_data remote st code_id with
  | error e =>
    simp [hcd] at h
  | ok cd =>
    simp only [hcd] at h
    by_cases hok : (wasm_contract_data remote st
        (sim_predictable_contract_address creator cd.checksum salt)).isOk = true
    · rw [if_pos hok] at h
      cases h
    · rw [if_neg hok] at h
      injection h with h
      injection h with ha hst
      refine ⟨cd, rfl, ha.symm, ?_, ?_⟩
      · rw [← ha]
        exact Bool.eq_false_iff.mpr hok
      · rw [← ha]
        exact hst.symm

/-- C6: two salt-less registrations with the same code and creator yield
distinct (sequential) addresses; a second salted registration with the
same creator, code and salt computes the same deterministic address and
fails with a duplicate-address error instead of registering. -/
theorem claim_C6_address_uniqueness (remote : WasmRemote) (st : WasmState) :
    (∀ (code_id : Nat) (creator : Addr) (admin1 admin2 : Option Addr)
        (a1 : Addr) (st1 : WasmState) (a2 : Addr) (st2 : WasmState),
      register_contract remote st code_id creator admin1 none = .ok (a1, st1) →
      register_contract remote st1 code_id creator admin2 none = .ok (a2, st2) →
      a1 ≠ a2) ∧
    (∀ (code_id : Nat) (creator : Addr) (admin1 admin2 : Option Addr)
        (salt : Bytes) (a1 : Addr) (st1 : WasmState),
      register_contract remote st code_id creator admin1 (some salt) = .ok (a1, st1) →
      register_contract remote st1 code_id creator admin2 (some salt)
        = .error (WasmError.duplicatedContractAddress a1)) := by
  constructor
  · intro code_id creator admin1 admin2 a1 st1 a2 st2 h1 h2
    obtain ⟨ha1, hlen1⟩ := register_none_ok remote st code_id creator admin1 a1 st1 h1
    obtain ⟨ha2, _⟩ := register_none_ok remote st1 code_id creator admin2 a2 st2 h2
    rw [ha1, ha2, hlen1]
    intro hcontra
    injection hcontra with hcontra
    omega
  · intro code_id creator admin1 admin2 salt a1 st1 h1
    obtain ⟨cd, hcd, ha1, hnok, hst1⟩ := register_some_ok remote st code_id creator
      admin1 salt a1 st1 h1
    have hfind := contract_data_not_ok_find remote st a1 hnok
    have hany := any_false_of_find?_none _ _ hfind
    have hcontracts : st1.contracts
        = st.contracts ++ [(a1, { code_id := code_id, creator := creator,
                                  admin := admin1 })] := by
      rw [hst1]
      unfold save_contract
      simp only [hany, Bool.false_eq_true, if_false]
    have hcd2 : wasm_code_data remote st1 code_id = .ok cd := by
      rw [hst1, wasm_code_data_save]
      exact hcd
    have hlook : wasm_contract_data remote st1 a1
        = .ok { code_id := code_id, creator := creator, admin := admin1 } := by
      unfold wasm_contract_data
      rw [hcontracts, find?_append_none _ _ _ hfind,
        List.find?_cons_of_pos _ (by simp)]
      rfl
    unfold register_contract
    simp only [bind, Except.bind, pure, Except.pure, sim_predictable_contract_address]
    simp only [hcd2]
    rw [← ha1, hlook]
    rfl

/-- Witness for C6: with an empty registry and one locally stored code,
the two salt-less addresses differ, and the second salted registration
fails with the duplicate-address error. -/
theorem claim_C6_witness :
    Addr.seq 0 ≠ Addr.seq 1 ∧
    register_contract ⟨fun _ => none, fun _ => none⟩
        { contracts := [(Addr.predictable (Addr.named "c") [7] [5],
                         { code_id := 1, creator := Addr.named "c", admin := none })],
          code_data := [(1, { creator := Addr.named "c", checksum := [7],
                              code_base_id := 1 })] }
        1 (Addr.named "c") none (some [5])
      = .error (WasmError.duplicatedContractAddress
          (Addr.predictable (Addr.named "c") [7] [5])) := by
  constructor
  · exact (claim_C6_address_uniqueness ⟨fun _ => none, fun _ => none⟩
      { contracts := [],
        code_data := [(1, { creator := Addr.named "c", checksum := [7],
                            code_base_id := 1 })] }).1
      1 (Addr.named "c") none none (Addr.seq 0) _ (Addr.seq 1) _ rfl rfl
  · exact (claim_C6_address_uniqueness ⟨fun _ => none, fun _ => none⟩
      { contracts := [],
        code_data := [(1, { creator := Addr.named "c", checksum := [7],
                            code_base_id := 1 })] }).2
      1 (Addr.named "c") none none [5] (Addr.predictable (Addr.named "c") [7] [5]) _ rfl

/-- C7: Migrate requires the sender to be the recorded admin, otherwise a
permission error and the record stays as it was; an admin-authorized
migrate stores the new code id without requiring the code to exist
anywhere (no hypothesis about codes appears); the code id is resolved
only when the migrate entry point is invoked — a failing resolution
surfaces as the error of that later step; UpdateAdmin/ClearAdmin are
likewise rejected for any sender other than the recorded admin. -/
theorem claim_C7_migrate_admin_gate (remote : WasmRemote) (st : WasmState)
    (sender contract_addr : Addr) (new_code_id : Nat)
    (entry : CodeData → Except WasmError Response) :
    (∀ data, wasm_contract_data remote st contract_addr = .ok data →
      data.admin ≠ some sender →
      migrate_update remote st sender contract_addr new_code_id
          = .error (WasmError.notAdmin data.admin) ∧
      execute_migrate remote st sender contract_addr new_code_id entry
          = .error (WasmError.notAdmin data.admin) ∧
      (∀ new_admin, update_admin remote st sender contract_addr new_admin
          = .error (WasmError.notAdmin data.admin))) ∧
    (∀ data, wasm_contract_data remote st contract_addr = .ok data →
      data.admin = some sender →
      migrate_update remote st sender contract_addr new_code_id
          = .ok (save_contract st contract_addr
              { code_id := new_code_id, creator := data.creator, admin := data.admin }) ∧
      wasm_contract_data remote
          (save_contract st contract_addr
            { code_id := new_code_id, creator := data.creator, admin := data.admin })
          contract_addr
        = .ok { code_id := new_code_id, creator := data.creator,
                admin := data.admin }) ∧
    (∀ data err, wasm_contract_data remote st contract_addr = .ok data →
      data.admin = some sender →
      wasm_code_data remote
          (save_contract st contract_addr
            { code_id := new_code_id, creator := data.creator, admin := data.admin })
          new_code_id
        = .error err →
      execute_migrate remote st sender contract_addr new_code_id entry
        = .error err) := by
  refine ⟨?_, ?_, ?_⟩
  · intro data hdata hadm
    have hmu : migrate_update remote st sender contract_addr new_code_id
        = .error (WasmError.notAdmin data.admin) := by
      unfold migrate_update
      simp only [bind, Except.bind]
      simp only [hdata]
      rw [if_pos hadm]
    refine ⟨hmu, ?_, ?_⟩
    · unfold execute_migrate
      simp only [bind, Except.bind]
      simp only [hmu]
    · intro new_admin
      unfold update_admin
      simp only [bind, Except.bind]
      simp only [hdata]
      rw [if_pos hadm]
  · intro data hdata hadm
    have hmu : migrate_update remote st sender contract_addr new_code_id
        = .ok (save_contract st contract_addr
            { code_id := new_code_id, creator := data.creator, admin := data.admin }) := by
      unfold migrate_update
      simp only [bind, Except.bind]
      simp only [hdata]
      rw [if_neg (by rw [hadm]; exact fun h => h rfl)]
    exact ⟨hmu, wasm_contract_data_save remote st contract_addr _⟩
  · intro data err hdata hadm hcode
    have hmu : migrate_update remote st sender contract_addr new_code_id
        = .ok (save_contract st contract_addr
            { code_id := new_code_id, creator := data.creator, admin := data.admin }) := by
      unfold migrate_update
      simp only [bind, Except.bind]
      simp only [hdata]
      rw [if_neg (by rw [hadm]; exact fun h => h rfl)]
    unfold execute_migrate
    simp only [bind, Except.bind]
    simp only [hmu]
    unfold call_migrate
    simp only [bind, Except.bind]
    simp only [wasm_contract_data_save remote st contract_addr
      { code_id := new_code_id, creator := data.creator, admin := data.admin }]
    simp only [hcode]

/-- Witness for C7: a non-admin sender is rejected on a concrete state. -/
theorem claim_C7_witness :
    migrate_update ⟨fun _ => none, fun _ => none⟩
        { contracts := [(Addr.seq 0,
            { code_id := 1, creator := Addr.named "c", admin := some (Addr.named "a") })],
          code_data := [] }
        (Addr.named "b") (Addr.seq 0) 2
      = .error (WasmError.notAdmin (some (Addr.named "a"))) :=
  ((claim_C7_migrate_admin_gate ⟨fun _ => none, fun _ => none⟩
      { contracts := [(Addr.seq 0,
          { code_id := 1, creator := Addr.named "c", admin := some (Addr.named "a") })],
        code_data := [] }
      (Addr.named "b") (Addr.seq 0) 2 (fun _ => .error (WasmError.entryPoint "no"))).1
    { code_id := 1, creator := Addr.named "c", admin := some (Addr.named "a") }
    rfl (by simp)).1

/-! ### Claim C8: synthetic events around entry-point calls -/

/-- C8: for a successful entry-point call, the processed event list is
exactly the synthetic entry-point event (kind = entry-point name, first
attribute the contract address) followed by a synthetic `wasm` event
wrapping the contract attributes — present exactly when attributes exist —
followed by every contract event with its kind prefixed by `wasm-` and
the contract address inserted as first attribute; the response data and
submessages pass through unchanged. -/
theorem claim_C8_response_events (name contract : String)
    (extra : List (String × String)) (response : Response) :
    ((build_app_response contract (entry_point_event name contract extra)
        response).1.events
      = ({ ty := name, attributes := (CONTRACT_ATTR, contract) :: extra } : Event)
        :: ((if response.attributes ≠ [] then
              [{ ty := "wasm",
                 attributes := (CONTRACT_ATTR, contract) :: response.attributes : Event }]
             else [])
            ++ response.events.map (fun ev =>
                { ty := "wasm-" ++ ev.ty,
                  attributes := (CONTRACT_ATTR, contract) :: ev.attributes }))) ∧
    ((build_app_response contract (entry_point_event name contract extra)
        response).1.events.head?
      = some (entry_point_event name contract extra)) ∧
    ((build_app_response contract (entry_point_event name contract extra)
        response).1.data = response.data) ∧
    ((build_app_response contract (entry_point_event name contract extra)
        response).2 = response.messages) :=
  ⟨rfl, rfl, rfl, rfl⟩

/-! ### Claim C9: receive-then-timeout relay -/

/-- C9: when the receive-then-timeout relay succeeds, the destination
chain transitioned exactly once, by the `Receive` call, and its final
state is the state immediately after that call — the source-side timeout
does not touch it; the source chain transitioned exactly once, by the
`Timeout` call; and the returned acknowledgement is the hex-decoded
`packet_ack_hex` attribute of the write-acknowledgement event of the
receive response. -/
theorem claim_C9_receive_then_timeout {σ1 σ2 : Type}
    (app1 : ChainApp σ1) (app2 : ChainApp σ2) (s1 : σ1) (s2 : σ2)
    (port channel : String) (sequence : Nat)
    (out : (AppResponse × AppResponse × Bytes) × σ1 × σ2)
    (h : receive_and_timeout_packet app1 app2 s1 s2 port channel sequence = .ok out) :
    ∃ packet,
      app1.query_send_packet port channel sequence = .ok packet ∧
      app2.sudo_ (IbcPacketRelayingMsg.receive packet) s2 = .ok (out.1.1, out.2.2) ∧
      app1.sudo_ (IbcPacketRelayingMsg.timeout packet) s1 = .ok (out.1.2.1, out.2.1) ∧
      ∃ hex, get_event_attr_value out.1.1 WRITE_ACK_EVENT "packet_ack_hex" = .ok hex ∧
              hexDecode hex = some out.1.2.2 := by
  unfold receive_and_timeout_packet at h
  simp only [bind, Except.bind] at h
  cases hq : app1.query_send_packet port channel sequence with
  | error e => simp [hq] at h
  | ok packet =>
    simp only [hq] at h
    cases hr : app2.sudo_ (IbcPacketRelayingMsg.receive packet) s2 with
    | error e => simp [hr] at h
    | ok pr =>
      obtain ⟨rresp, s2a⟩ := pr
      simp only [hr] at h
      cases hga : get_event_attr_value rresp WRITE_ACK_EVENT "packet_ack_hex" with
      | error e => simp [hga] at h
      | ok hex =>
        simp only [hga] at h
        cases hhd : hexDecode hex with
        | none => simp [hhd] at h
        | some ack =>
          simp only [hhd] at h
          cases ht : app1.sudo_ (IbcPacketRelayingMsg.timeout packet) s1 with
          | error e => simp [ht] at h
          | ok pt =>
            obtain ⟨tresp, s1a⟩ := pt
            simp only [ht] at h
            injection h with h
            rw [← h]
            exact ⟨packet, rfl, hr, ht, hex, hga, hhd⟩

/-- Witness for C9: a concrete two-chain relay where the destination
writes acknowledgement hex "2a". -/
theorem claim_C9_witness :
    ∃ packet,
      (ChainApp.mk (fun _ _ _ => .ok ⟨"p", "c", "p2", "c2", 1, [1]⟩)
          (fun _ s => .ok (⟨[], none⟩, s + 1)) : ChainApp Nat).query_send_packet
          "p" "c" 1 = .ok packet ∧
      (ChainApp.mk (fun _ _ _ => .error "no query")
          (fun _ s => .ok
            (⟨[⟨"write_acknowledgement", [("packet_ack_hex", "2a")]⟩], none⟩, s + 10))
          : ChainApp Nat).sudo_ (IbcPacketRelayingMsg.receive packet) 0
        = .ok (⟨[⟨"write_acknowledgement", [("packet_ack_hex", "2a")]⟩], none⟩, 10) ∧
      (ChainApp.mk (fun _ _ _ => .ok ⟨"p", "c", "p2", "c2", 1, [1]⟩)
          (fun _ s => .ok (⟨[], none⟩, s + 1)) : ChainApp Nat).sudo_
          (IbcPacketRelayingMsg.timeout packet) 0
        = .ok (⟨[], none⟩, 1) ∧
      ∃ hex, get_event_attr_value
          ⟨[⟨"write_acknowledgement", [("packet_ack_hex", "2a")]⟩], none⟩
          WRITE_ACK_EVENT "packet_ack_hex" = .ok hex ∧
        hexDecode hex = some [42] :=
  claim_C9_receive_then_timeout
    (ChainApp.mk (fun _ _ _ => .ok ⟨"p", "c", "p2", "c2", 1, [1]⟩)
      (fun _ s => .ok (⟨[], none⟩, s + 1)))
    (ChainApp.mk (fun _ _ _ => .error "no query")
      (fun _ s => .ok
        (⟨[⟨"write_acknowledgement", [("packet_ack_hex", "2a")]⟩], none⟩, s + 10)))
    0 0 "p" "c" 1
    ((⟨[⟨"write_acknowledgement", [("packet_ack_hex", "2a")]⟩], none⟩,
      ⟨[], none⟩, [42]), 1, 10)
    rfl

/-! ### Claim C10: instantiate response data -/

lemma decode_varint_encode : ∀ (n : Nat) (rest : List Nat),
    decode_varint (varint n ++ rest) = some (n, rest) := by
  intro n
  induction n using Nat.strong_induction_on with
  | _ n ih =>
    intro rest
    by_cases h : n < 128
    · rw [varint, dif_pos h]
      simp only [List.cons_append, List.nil_append, decode_varint, if_pos h]
      rfl
    · rw [varint, dif_neg h]
      have hb : ¬ (n % 128 + 128 < 128) := by omega
      simp only [List.cons_append, decode_varint, if_neg hb]
      have hu : (varint (n / 128)).append rest = varint (n / 128) ++ rest := rfl
      rw [hu, ih (n / 128) (Nat.div_lt_self (by omega) (by omega)) rest]
      show some (n / 128 * 128 + (n % 128 + 128 - 128), rest) = some (n, rest)
      have heq : n / 128 * 128 + (n % 128 + 128 - 128) = n := by omega
      rw [heq]

lemma decode_instantiate_roundtrip (d : Option Bytes) (a : Bytes) (ha : a ≠ []) :
    decode_instantiate_address (instantiate_response d a) = some a := by
  have henc : instantiate_response d a
      = 10 :: (varint a.length ++ (a ++ encode_len_field 18 (d.getD []))) := by
    unfold instantiate_response
    rw [show encode_len_field 10 a = 10 :: (varint a.length ++ a) from by
      unfold encode_len_field; rw [if_neg ha]]
    rw [List.cons_append, List.append_assoc]
  rw [henc]
  simp only [decode_instantiate_address, if_pos, decode_varint_encode]
  rw [if_pos (by simp)]
  rw [List.take_left]

lemma instantiate_response_nonempty (d : Option Bytes) (a : Bytes) (ha : a ≠ []) :
    instantiate_response d a ≠ [] := by
  unfold instantiate_response
  rw [show encode_len_field 10 a = 10 :: (varint a.length ++ a) from by
    unfold encode_len_field; rw [if_neg ha]]
  simp

lemma instantiate_response_longer (d : Option Bytes) (a : Bytes) (ha : a ≠ []) :
    (d.getD []).length < (instantiate_response d a).length := by
  unfold instantiate_response
  rw [show encode_len_field 10 a = 10 :: (varint a.length ++ a) from by
    unfold encode_len_field; rw [if_neg ha]]
  by_cases hd : d.getD [] = []
  · rw [show encode_len_field 18 (d.getD []) = [] from by
      unfold encode_len_field; rw [if_pos hd]]
    rw [hd]
    simp
  · rw [show encode_len_field 18 (d.getD [])
        = 18 :: (varint (d.getD []).length ++ d.getD []) from by
      unfold encode_len_field; rw [if_neg hd]]
    simp [List.length_append]
    omega

/-- C10: a successful Instantiate or Instantiate2 always returns `Some`
data: the protobuf record of the new contract's address and the final
data bytes (empty when none); when the address is non-empty the encoding
is non-empty, the address decodes back out of it, and it is strictly
longer than the raw data bytes (so it is never the contract's raw
data). -/
theorem claim_C10_instantiate_data (label : String)
    (register : Except WasmError Bytes) (send : Except WasmError Unit)
    (callAndProcess : Bytes → Except WasmError AppResponse) (res : AppResponse)
    (h : process_wasm_msg_instantiate label register send callAndProcess = .ok res) :
    ∃ addr d, register = .ok addr ∧
      res.data = some (instantiate_response d addr) ∧
      (addr ≠ [] →
        instantiate_response d addr ≠ [] ∧
        decode_instantiate_address (instantiate_response d addr) = some addr ∧
        (d.getD []).length < (instantiate_response d addr).length) := by
  unfold process_wasm_msg_instantiate at h
  by_cases hl : label = ""
  · rw [if_pos hl] at h
    cases h
  · rw [if_neg hl] at h
    simp only [bind, Except.bind] at h
    cases hr : register with
    | error e => simp [hr] at h
    | ok addr =>
      simp only [hr] at h
      cases hs : send with
      | error e => simp [hs] at h
      | ok u =>
        simp only [hs] at h
        cases hc : callAndProcess addr with
        | error e => simp [hc] at h
        | ok r0 =>
          simp only [hc, pure, Except.pure] at h
          injection h with h
          refine ⟨addr, r0.data, rfl, ?_, ?_⟩
          · rw [← h]
          · intro ha
            exact ⟨instantiate_response_nonempty r0.data addr ha,
                   decode_instantiate_roundtrip r0.data addr ha,
                   instantiate_response_longer r0.data addr ha⟩

/-- Witness for C10: a concrete successful instantiate pipeline. -/
theorem claim_C10_witness :
    ∃ addr d, (.ok [99] : Except WasmError Bytes) = .ok addr ∧
      ({ events := [],
         data := some (instantiate_response (some [1, 2]) [99]) } : AppResponse).data
        = some (instantiate_response d addr) ∧
      (addr ≠ [] →
        instantiate_response d addr ≠ [] ∧
        decode_instantiate_address (instantiate_response d addr) = some addr ∧
        (d.getD []).length < (instantiate_response d addr).length) :=
  claim_C10_instantiate_data "x" (.ok [99]) (.ok ())
    (fun _ => .ok { events := [], data := some [1, 2] })
    { events := [], data := some (instantiate_response (some [1, 2]) [99]) } rfl

end CwMultiTest
